import Mathlib

/-!
Verification development for the CUPS buffered file API (cups/file.c).

The read side (`cups_fill`, `cupsFileRead`, `cupsFileRewind`, `cupsFileSeek`),
the write side (`cupsFileFlush`, `cupsFileWrite`, `cupsFileClose`,
`cupsFilePrintf`) and the configuration-line reader (`cupsFileGetConf`) are
embedded as pure functions over explicit handle states.  Bytes are natural
numbers below 256; the 4096-byte buffer of the C struct becomes a list of at
most 4096 bytes; the `char *ptr` cursor becomes an optional index (NULL is
`none`); the file descriptor becomes a byte list plus a read offset.

zlib is not part of this repository, so the DEFLATE codec is modelled from the
spec: the decompressor accepts byte-aligned stored (uncompressed) DEFLATE
blocks, which are genuine DEFLATE streams, and the compressor emits a single
stored block when finalised.  The model covers streams whose compressed input
arrives in one piece and whose uncompressed output fits one 4096-byte buffer;
every theorem below stays inside that domain.
-/

/-- Buffer capacity of the handle (`char buf[4096]` in `_cups_file_s`). -/
def BUFSZ : Nat := 4096

/-- One step of the reflected CRC-32 bit loop (polynomial 0xEDB88320). -/
def crcStep (c : Nat) : Nat :=
  if c % 2 = 1 then (c / 2) ^^^ 0xEDB88320 else c / 2

/-- Absorb one byte into the raw (pre/post-inverted) CRC-32 state. -/
def crcByte (c b : Nat) : Nat :=
  crcStep (crcStep (crcStep (crcStep (crcStep (crcStep (crcStep (crcStep (c ^^^ b % 256))))))))

/-- zlib's crc32(crc, buf, len): pre-invert, absorb the bytes, post-invert.
crc32Z 0 [] = 0 matches crc32(0L, Z_NULL, 0). -/
def crc32Z (c : Nat) (data : List Nat) : Nat :=
  (data.foldl crcByte (c ^^^ 0xFFFFFFFF)) ^^^ 0xFFFFFFFF

/-- Little-endian 4-byte encoding used by the gzip trailer writes:
(unsigned char)x, (unsigned char)(x >> 8), ... in `cupsFileClose`. -/
def le32 (x : Nat) : List Nat :=
  [x % 256, (x >>> 8) % 256, (x >>> 16) % 256, (x >>> 24) % 256]

/-- Modelled from the spec: a single byte-aligned stored DEFLATE block holding
the payload `d` (BFINAL=1, BTYPE=00, LEN/NLEN little-endian, then raw bytes).
This is the shape the modelled compressor emits and the modelled decompressor
consumes; it is a valid DEFLATE stream for `d.length < 65536`. -/
def storedDeflate (d : List Nat) : List Nat :=
  1 :: d.length % 256 :: d.length / 256 % 256 ::
    (d.length ^^^ 0xffff) % 256 :: (d.length ^^^ 0xffff) / 256 % 256 :: d

/-- Modelled from the spec: zlib's `inflate` restricted to byte-aligned stored
DEFLATE blocks.  Parses blocks from `input` until a BFINAL block completes and
returns the decompressed output together with the unconsumed input after the
end of the stream; `none` stands for a decompressor error status.  The fuel is
always at least the input length plus one at the call site. -/
def inflateBlocks : Nat → List Nat → List Nat → Option (List Nat × List Nat)
  | 0, _, _ => none
  | fuel + 1, acc, input =>
    match input with
    | b0 :: l1 :: l2 :: n1 :: n2 :: rest =>
      if b0 &&& 6 ≠ 0 then none
      else
        let len := l1 + 256 * l2
        let nlen := n1 + 256 * n2
        if nlen ≠ (len ^^^ 0xffff) then none
        else if rest.length < len then none
        else if b0 % 2 = 1 then some (acc ++ rest.take len, rest.drop len)
        else inflateBlocks fuel (acc ++ rest.take len) (rest.drop len)
    | _ => none

/-- Underlying read-mode file descriptor: the file contents and the current
read position.  `read`/`cups_read` never fail in this model. -/
structure RFd where
  data : List Nat
  offset : Nat
deriving DecidableEq, Repr

/-- read(fd, buf, n): delivers up to `n` bytes from the current offset. -/
def fdRead (f : RFd) (n : Nat) : RFd × List Nat :=
  let chunk := (f.data.drop f.offset).take n
  ({ f with offset := f.offset + chunk.length }, chunk)

/-- Read-mode CUPS file handle (`_cups_file_s`, mode 'r').  `buf` holds the
bytes between `buf` and `end`; `ptrIdx` is the cursor (`none` models a NULL
`ptr`); `availIn` is the pending decompressor input (`next_in`/`avail_in`
into `cbuf`); `crc` is the running CRC-32 accumulator. -/
structure CF where
  fd : RFd
  compressed : Bool
  buf : List Nat
  ptrIdx : Option Nat
  eof : Bool
  pos : Nat
  bufpos : Nat
  availIn : List Nat
  crc : Nat
deriving DecidableEq, Repr

/-- A freshly opened read handle (cupsFileOpenFd with mode "r"): calloc'd. -/
def freshR (data : List Nat) : CF :=
  { fd := ⟨data, 0⟩, compressed := false, buf := [], ptrIdx := none,
    eof := false, pos := 0, bufpos := 0, availIn := [], crc := 0 }

/-- The gzip sniff test of `cups_fill`: at least 10 bytes, magic 1F 8B,
compression method 8, and no reserved flag bits (buf[3] & 0xE0). -/
def sniffOk (chunk : List Nat) : Bool :=
  decide (10 ≤ chunk.length) && (chunk.getD 0 0 == 0x1f) && (chunk.getD 1 0 == 0x8b)
    && (chunk.getD 2 0 == 8) && ((chunk.getD 3 0 &&& 0xe0) == 0)

/-- Skip a NUL-terminated field inside the sniffed header: advance while the
byte is nonzero and in bounds, then consume the NUL; `none` is the truncation
error.  Structurally recursive on the distance to the end of the chunk. -/
def skipNulAux : Nat → List Nat → Nat → Option Nat
  | 0, _, _ => none
  | fuel + 1, chunk, p =>
    if p < chunk.length then
      if chunk.getD p 0 = 0 then some (p + 1) else skipNulAux fuel chunk (p + 1)
    else none

/-- Skip a NUL-terminated header field starting at index `p`. -/
def skipNulIdx (chunk : List Nat) (p : Nat) : Option Nat :=
  skipNulAux (chunk.length + 1) chunk p

/-- Parse the optional gzip header fields of `cups_fill` (extra data, original
name, comment, header CRC, in that order, driven by the flag byte) and return
the index of the first byte of compressed data; `none` is the truncated-header
error path (eof set, -1 returned). -/
def gzSkipHeader (chunk : List Nat) : Option Nat :=
  let flags := chunk.getD 3 0
  let n := chunk.length
  let step1 : Option Nat :=
    if flags &&& 0x04 ≠ 0 then
      let xlen := (chunk.getD 11 0) <<< 8 ||| chunk.getD 10 0
      if 10 + 2 > n then none
      else if 10 + 2 + xlen > n then none
      else some (10 + 2 + xlen)
    else some 10
  step1.bind fun p1 =>
    (if flags &&& 0x08 ≠ 0 then skipNulIdx chunk p1 else some p1).bind fun p2 =>
      (if flags &&& 0x10 ≠ 0 then skipNulIdx chunk p2 else some p2).bind fun p3 =>
        if flags &&& 0x02 ≠ 0 then
          if p3 + 2 > n then none else some (p3 + 2)
        else some p3

/-- The trailer CRC decode of `cups_fill`:
`(((trailer[3] << 8 | trailer[2]) << 8 | trailer[1]) << 8) | trailer[0]`. -/
def gzTrailerCrc (t : List Nat) : Nat :=
  ((((t.getD 3 0 <<< 8) ||| t.getD 2 0) <<< 8 ||| t.getD 1 0) <<< 8) ||| t.getD 0 0

/-- The raw-read tail of `cups_fill` (after the while loop): one `cups_read`
of a buffer's worth; zero bytes sets `eof`. -/
def fillRaw (fp : CF) : CF × Int :=
  let r := fdRead fp.fd BUFSZ
  if r.2.length = 0 then
    ({ fp with fd := r.1, eof := true, ptrIdx := some 0, buf := [] }, 0)
  else
    ({ fp with fd := r.1, eof := false, ptrIdx := some 0, buf := r.2 }, (r.2.length : Int))

/-- The sniff phase at the top of the `cups_fill` loop body, run when `ptr`
is NULL: clear the compressed flag, read a buffer's worth, and test the gzip
header.  `Sum.inl` returns from the fill (chunk returned raw when the header
is absent or malformed, or -1 on a truncated optional field), `Sum.inr`
continues with the remaining sniffed bytes handed to the decompressor. -/
def sniffPhase (fp : CF) : (CF × Int) ⊕ CF :=
  if fp.ptrIdx = none then
    let fp1 : CF := { fp with compressed := false }
    let r := fdRead fp1.fd BUFSZ
    let fp2 : CF := { fp1 with fd := r.1 }
    if sniffOk r.2 = false then
      Sum.inl ({ fp2 with ptrIdx := some 0, buf := r.2 }, (r.2.length : Int))
    else
      match gzSkipHeader r.2 with
      | none => Sum.inl ({ fp2 with eof := true }, -1)
      | some p =>
        Sum.inr { fp2 with availIn := r.2.drop p, crc := 0, compressed := true }
  else Sum.inr fp

/-- The decompression phase of the `cups_fill` loop body: return 0 at eof,
refill the decompressor input from the descriptor if it ran dry, inflate
into the buffer accumulating the CRC-32, and on end-of-member consume the
8 trailer bytes (from the pending input, completed by a direct read) and
compare its little-endian CRC-32 with the accumulator — on mismatch fail
with eof set, on match clear the compressed flag.  `Sum.inl` returns from
the fill; `Sum.inr` is the end-of-member-with-no-output case, which falls
back into the loop. -/
def refillAvail (fp : CF) : (CF × Int) ⊕ CF :=
  if fp.availIn = [] then
    let r := fdRead fp.fd BUFSZ
    let fp1 : CF := { fp with fd := r.1 }
    if r.2.length = 0 then Sum.inl ({ fp1 with eof := true }, 0)
    else Sum.inr { fp1 with availIn := r.2 }
  else Sum.inr fp

def inflateCore (fp : CF) : (CF × Int) ⊕ CF :=
  match inflateBlocks (fp.availIn.length + 1) [] fp.availIn with
  | none => Sum.inl ({ fp with eof := true }, -1)
  | some outRem =>
    if outRem.1.length ≤ BUFSZ then
      let fp1 : CF := { fp with crc := crc32Z fp.crc outRem.1 }
      let tbytes := min 8 outRem.2.length
      let fp2 : CF := { fp1 with availIn := outRem.2.drop tbytes }
      let r := fdRead fp2.fd (8 - tbytes)
      let fp3 : CF := { fp2 with fd := r.1 }
      if r.2.length < 8 - tbytes then Sum.inl ({ fp3 with eof := true }, -1)
      else
        let trailer := outRem.2.take tbytes ++ r.2
        if gzTrailerCrc trailer ≠ fp3.crc then Sum.inl ({ fp3 with eof := true }, -1)
        else
          let fp4 : CF :=
            { fp3 with compressed := false, ptrIdx := some 0, buf := outRem.1 }
          if outRem.1.length ≠ 0 then Sum.inl (fp4, (outRem.1.length : Int))
          else Sum.inr fp4
    else Sum.inl ({ fp with eof := true }, -1)

def inflatePhase (fp : CF) : (CF × Int) ⊕ CF :=
  if fp.eof then Sum.inl (fp, 0)
  else
    match refillAvail fp with
    | Sum.inl r => Sum.inl r
    | Sum.inr fp => inflateCore fp

/-- One iteration of the `cups_fill` loop body: the sniff phase (when `ptr`
is NULL), then the decompression phase when the handle is (now) compressed.
`Sum.inr` re-enters the loop. -/
def fillStep (fp : CF) : (CF × Int) ⊕ CF :=
  match sniffPhase fp with
  | Sum.inl r => Sum.inl r
  | Sum.inr fp => if fp.compressed then inflatePhase fp else Sum.inr fp

/-- The while loop of `cups_fill` (`while (!fp->ptr || fp->compressed)`):
run iterations of `fillStep` while the condition holds; leaving the loop
falls through to the raw read.  Fuel exhaustion is modelled as an I/O error;
within the verified domain fuel 4 is never exhausted. -/
def fillLoop : Nat → CF → CF × Int
  | 0, fp => ({ fp with eof := true }, -1)
  | fuel + 1, fp =>
    if fp.ptrIdx = none ∨ fp.compressed then
      match fillStep fp with
      | Sum.inl r => r
      | Sum.inr fp => fillLoop fuel fp
    else
      fillRaw fp

/-- cups_fill: advance the buffer anchor past the current buffer contents
(`fp->bufpos += fp->end - fp->buf` when `ptr`/`end` are set), then run the
fill loop. -/
def cups_fill (fp : CF) : CF × Int :=
  let fp := if fp.ptrIdx.isSome then { fp with bufpos := fp.bufpos + fp.buf.length } else fp
  fillLoop 4 fp

/-- Whether the read cursor has exhausted the buffer (`fp->ptr >= fp->end`;
a NULL ptr compares as exhausted, as in the C). -/
def needFill (fp : CF) : Bool :=
  match fp.ptrIdx with
  | none => true
  | some i => decide (fp.buf.length ≤ i)

/-- The read loop of `cupsFileRead`: fill when the buffer is exhausted, stop
returning the partial total on a failed fill, else copy
`min (end - ptr) bytes` and advance cursor and position.  The fuel is
`bytes + 1` at the call site, which suffices since every pass after a
successful fill consumes at least one byte. -/
def readLoop : Nat → CF → Nat → List Nat → CF × Int × List Nat
  | 0, fp, _, acc => (fp, -1, acc)
  | fuel + 1, fp, bytes, acc =>
    if bytes = 0 then (fp, (acc.length : Int), acc)
    else
      let step : CF → CF × Int × List Nat := fun fp =>
        let i := fp.ptrIdx.getD 0
        let count := min (fp.buf.length - i) bytes
        readLoop fuel { fp with ptrIdx := some (i + count), pos := fp.pos + count }
          (bytes - count) (acc ++ (fp.buf.drop i).take count)
      if needFill fp then
        let r := cups_fill fp
        if r.2 ≤ 0 then
          (r.1, if acc.length > 0 then (acc.length : Int) else -1, acc)
        else step r.1
      else step fp

/-- cupsFileRead on a read-mode handle: returns the updated handle, the byte
count (or -1), and the bytes delivered to the caller's buffer. -/
def cupsFileRead (fp : CF) (bytes : Nat) : CF × Int × List Nat :=
  if bytes = 0 then (fp, 0, [])
  else if fp.eof then (fp, -1, [])
  else readLoop (bytes + 1) fp bytes []

/-- cupsFileRewind: if the buffer anchor is zero, just move the cursor back to
the buffer start; otherwise tear down any decompression state, lseek the
descriptor to zero, and clear the cursor so the next fill re-sniffs. -/
def cupsFileRewind (fp : CF) : CF × Int :=
  if fp.bufpos = 0 then
    let fp1 : CF := { fp with pos := 0 }
    if fp1.ptrIdx.isSome then ({ fp1 with ptrIdx := some 0, eof := false }, 0)
    else (fp1, 0)
  else
    let fp1 : CF := if fp.compressed then { fp with compressed := false } else fp
    ({ fp1 with fd := { fp1.fd with offset := 0 }, bufpos := 0, pos := 0,
                ptrIdx := none, buf := [], eof := false }, 0)

/-- The replay loop of `cupsFileSeek`: fill repeatedly until the buffer window
covers the target position, then place the cursor inside the window; a fill
that produces no data is a seek failure.  `none` is fuel exhaustion only. -/
def seekLoopB : Nat → CF → Nat → Option (CF × Int)
  | 0, _, _ => none
  | fuel + 1, fp, pos =>
    let r := cups_fill fp
    if r.2 ≤ 0 then some (r.1, -1)
    else if r.1.bufpos ≤ pos ∧ pos < r.1.bufpos + r.2.toNat then
      some ({ r.1 with ptrIdx := some (pos - r.1.bufpos), pos := pos }, (pos : Int))
    else seekLoopB fuel r.1 pos

/-- cupsFileSeek on a read-mode handle.  Position 0 delegates to rewind; a
target inside the current buffer window is pure cursor arithmetic; an
uncompressed handle with no buffer preloads one fill to classify the stream;
then an uncompressed handle lseeks directly and invalidates the buffer, while
a compressed one restarts decompression from zero (backwards) or keeps
filling forward and replays until the window covers the target. -/
def cupsFileSeek (fuel : Nat) (fp : CF) (pos : Nat) : Option (CF × Int) :=
  if pos = 0 then some (cupsFileRewind fp)
  else
    let inBuf : Option (CF × Int) :=
      if fp.ptrIdx.isSome then
        if fp.bufpos ≤ pos ∧ pos < fp.bufpos + fp.buf.length then
          some ({ fp with pos := pos, ptrIdx := some (pos - fp.bufpos), eof := false },
            (pos : Int))
        else none
      else none
    match inBuf with
    | some r => some r
    | none =>
      let preload : (CF × Int) ⊕ CF :=
        if fp.compressed = false ∧ fp.ptrIdx = none then
          let r := cups_fill fp
          if r.2 ≤ 0 then Sum.inl (r.1, -1) else Sum.inr r.1
        else Sum.inr fp
      match preload with
      | Sum.inl r => some r
      | Sum.inr fp0 =>
        let fp1 : CF := { fp0 with eof := false }
        if pos < fp1.bufpos then
          if fp1.compressed then
            seekLoopB fuel
              { fp1 with fd := { fp1.fd with offset := 0 }, bufpos := 0, pos := 0,
                         ptrIdx := none, buf := [] } pos
          else
            some ({ fp1 with fd := { fp1.fd with offset := pos }, bufpos := pos, pos := pos,
                             ptrIdx := none, buf := [] }, (pos : Int))
        else
          if fp1.compressed then seekLoopB fuel fp1 pos
          else
            some ({ fp1 with fd := { fp1.fd with offset := pos }, bufpos := pos, pos := pos,
                             ptrIdx := none, buf := [] }, (pos : Int))

/-- The buffer-anchor invariant of the handle: while no error has been
flagged, the logical position equals the buffer anchor plus the cursor's
offset from the buffer start (with a NULL cursor the position is the anchor
itself, the offset being zero). -/
def posInv (fp : CF) : Prop :=
  fp.eof = false → fp.pos = fp.bufpos + fp.ptrIdx.getD 0

/-- Underlying write-mode descriptor: collected bytes plus a broken flag; a
broken descriptor models a hard write error (`cups_write` returns false). -/
structure WFd where
  broken : Bool
  written : List Nat
deriving DecidableEq, Repr

/-- cups_write: loops until all bytes are written; with zero bytes the loop
body never runs; a hard error yields false. -/
def wfdWrite (f : WFd) (bs : List Nat) : WFd × Bool :=
  if bs = [] then (f, true)
  else if f.broken then (f, false)
  else ({ f with written := f.written ++ bs }, true)

/-- Write-mode CUPS file handle (mode 'w').  `buf` is the unflushed span
(`ptr - buf`), `pending` the input absorbed by the modelled deflate state,
`cbufOut` the compression scratch buffer contents (`next_out - cbuf`),
`finished` whether Z_FINISH has emitted the stream. -/
structure WF where
  fd : WFd
  compressed : Bool
  buf : List Nat
  pos : Nat
  crc : Nat
  pending : List Nat
  finished : Bool
  cbufOut : List Nat
  printfAlloc : Bool
  printfSize : Nat
deriving DecidableEq, Repr

/-- The gzip header written by cupsFileOpenFd for mode "w1".."w9"
(magic, method 8, no flags, mtime, xfl 0, OS 3) with mtime `t`. -/
def gzWriteHeader (t : Nat) : List Nat :=
  [0x1f, 0x8b, 8, 0, t % 256, (t >>> 8) % 256, (t >>> 16) % 256, (t >>> 24) % 256, 0, 3]

/-- A compressed write handle as produced by cupsFileOpenFd with mode "w9":
the 10-byte gzip header is written immediately (its status unchecked in the
source), the CRC accumulator is seeded with crc32(0, NULL, 0) = 0. -/
def cupsFileOpenW (t : Nat) (broken : Bool) : WF :=
  let r := wfdWrite { broken := broken, written := [] } (gzWriteHeader t)
  { fd := r.1, compressed := true, buf := [], pos := 0, crc := 0,
    pending := [], finished := false, cbufOut := [], printfAlloc := false, printfSize := 0 }

/-- cups_compress: update the CRC-32 over the uncompressed input, then loop
feeding the deflate stream, flushing the scratch buffer to the raw writer
when its free space drops under an eighth of its capacity.  The modelled
deflate absorbs all input on Z_NO_FLUSH without producing output, so the
loop runs its scratch-flush check once and consumes everything. -/
def cups_compress (fp : WF) (bs : List Nat) : WF × Bool :=
  let fp := { fp with crc := crc32Z fp.crc bs }
  if bs = [] then (fp, true)
  else
    let flushStep : (WF × Bool) ⊕ WF :=
      if BUFSZ - fp.cbufOut.length < BUFSZ / 8 then
        let r := wfdWrite fp.fd fp.cbufOut
        if r.2 = false then Sum.inl ({ fp with fd := r.1 }, false)
        else Sum.inr { fp with fd := r.1, cbufOut := [] }
      else Sum.inr fp
    match flushStep with
    | Sum.inl r => r
    | Sum.inr fp => ({ fp with pending := fp.pending ++ bs }, true)

/-- cupsFileFlush on a write handle: push the unflushed span through the
compressor or the raw writer and reset the cursor to the buffer start. -/
def cupsFileFlush (fp : WF) : WF × Bool :=
  if fp.buf.length > 0 then
    if fp.compressed then cups_compress { fp with buf := [] } fp.buf
    else
      let r := wfdWrite fp.fd fp.buf
      ({ fp with fd := r.1, buf := [] }, r.2)
  else (fp, true)

/-- cupsFileWrite on a write-mode handle: flush first if the incoming bytes
would overflow the buffer's room, account the logical position, then either
bypass the buffer (payload larger than the whole buffer) or append to it. -/
def cupsFileWrite (fp : WF) (bs : List Nat) : WF × Bool :=
  if bs = [] then (fp, true)
  else
    let step1 : (WF × Bool) ⊕ WF :=
      if fp.buf.length + bs.length > BUFSZ then
        let r := cupsFileFlush fp
        if r.2 = false then Sum.inl (r.1, false) else Sum.inr r.1
      else Sum.inr fp
    match step1 with
    | Sum.inl r => r
    | Sum.inr fp =>
      let fp := { fp with pos := fp.pos + bs.length }
      if bs.length > BUFSZ then
        if fp.compressed then cups_compress fp bs
        else
          let r := wfdWrite fp.fd bs
          ({ fp with fd := r.1 }, r.2)
      else ({ fp with buf := fp.buf ++ bs }, true)

/-- The drain loop of `cupsFileClose` for a compressed write handle: write out
any filled portion of the compression scratch buffer, stop once done or on a
write failure, else call deflate(Z_FINISH); done once it reports Z_STREAM_END
with nothing left in the scratch buffer.  The modelled deflate emits the whole
stored-block stream on the first Z_FINISH and nothing afterwards, so fuel 4
always suffices; fuel exhaustion returns the state as is (unreachable). -/
def drainLoop : Nat → WF → Bool → Bool → WF × Bool
  | 0, fp, _, status => (fp, status)
  | fuel + 1, fp, done, status =>
    let w : WF × Bool :=
      if fp.cbufOut ≠ [] then
        let r := wfdWrite fp.fd fp.cbufOut
        ({ fp with fd := r.1, cbufOut := [] }, r.2)
      else (fp, status)
    if done || !w.2 then (w.1, w.2)
    else
      let fp1 : WF :=
        if w.1.finished then w.1
        else { w.1 with cbufOut := storedDeflate w.1.pending, finished := true }
      drainLoop fuel fp1 (fp1.finished && (fp1.cbufOut == [])) w.2

/-- Result of cupsFileClose: the returned status, the bytes that reached the
descriptor, and which releases ran (deflateEnd, the frees of the printf
buffer and the handle, the close of the descriptor). -/
structure CloseResult where
  status : Bool
  written : List Nat
  deflateEnded : Bool
  freedBuffers : Bool
  closedFd : Bool
deriving DecidableEq, Repr

/-- cupsFileClose on a write-mode handle: flush pending data; if compressed
and the flush succeeded, drain the compressor, then append the 8-byte trailer
(little-endian CRC-32 of the uncompressed content, then the uncompressed
length's low 32 bits) whose write status is the one returned, and release the
deflate state; finally free the printf buffer and the handle and close the
descriptor (both unconditional on a non-stdio handle; the close succeeds in
this model). -/
def cupsFileClose (fp : WF) : CloseResult :=
  let f := cupsFileFlush fp
  let fin : WF × Bool × Bool :=
    if f.1.compressed ∧ f.2 then
      let d := drainLoop 4 f.1 false f.2
      let trailer := le32 d.1.crc ++ le32 d.1.pos
      let w := wfdWrite d.1.fd trailer
      ({ d.1 with fd := w.1 }, w.2, true)
    else (f.1, f.2, false)
  { status := fin.2.1, written := fin.1.fd.written, deflateEnded := fin.2.2,
    freedBuffers := true, closedFd := true }

/-- Conversion of a C int return value to the declared `bool` result type:
any nonzero value, including -1, converts to true under C99 _Bool. -/
def cBool (i : Int) : Bool := i != 0

/-- cupsFilePrintf on a write-mode handle, with vsnprintf modelled from the
spec: `s` is the fully rendered output, whose length is what vsnprintf
returns.  A first call allocates the 1024-byte printf buffer; a rendering at
or above the current capacity regrows the buffer to exactly fit unless it
exceeds 65535 bytes, in which case the source executes `return (-1)` — which
the declared bool return type converts to true.  Allocation never fails in
this model.  The rendered bytes then go through the same flush/append path
as cupsFileWrite. -/
def cupsFilePrintf (fp : WF) (s : List Nat) : WF × Bool :=
  let fp := if fp.printfAlloc = false then { fp with printfAlloc := true, printfSize := 1024 } else fp
  let grow : (WF × Bool) ⊕ WF :=
    if s.length ≥ fp.printfSize then
      if s.length > 65535 then Sum.inl (fp, cBool (-1))
      else Sum.inr { fp with printfSize := s.length + 1 }
    else Sum.inr fp
  match grow with
  | Sum.inl r => r
  | Sum.inr fp =>
    let step1 : (WF × Bool) ⊕ WF :=
      if fp.buf.length + s.length > BUFSZ then
        let r := cupsFileFlush fp
        if r.2 = false then Sum.inl (r.1, false) else Sum.inr r.1
      else Sum.inr fp
    match step1 with
    | Sum.inl r => r
    | Sum.inr fp =>
      let fp := { fp with pos := fp.pos + s.length }
      if s.length > BUFSZ then
        if fp.compressed then cups_compress fp s
        else
          let r := wfdWrite fp.fd s
          ({ fp with fd := r.1 }, r.2)
      else ({ fp with buf := fp.buf ++ s }, true)

/-- The whitespace test `_cups_isspace` of the configuration reader. -/
def isCupsSpace (c : Char) : Bool :=
  c == ' ' || c == '\t' || c == '\n' || c == '\x0b' || c == '\x0c' || c == '\r'

/-- strchr: index of the first occurrence of `c`, if any. -/
def strchrIdx (c : Char) : List Char → Option Nat
  | [] => none
  | a :: l => if a == c then some 0 else (strchrIdx c l).map (· + 1)

/-- Index of the first whitespace character (the token-splitting scan of
`cupsFileGetConf`). -/
def wsIdx : List Char → Option Nat
  | [] => none
  | a :: l => if isCupsSpace a then some 0 else (wsIdx l).map (· + 1)

/-- Remove trailing whitespace (the backward `while (ptr > buf && isspace)`
walks of `cupsFileGetConf`). -/
def stripTrailingWs (l : List Char) : List Char :=
  (l.reverse.dropWhile fun c => isCupsSpace c).reverse

/-- The per-line body of `cupsFileGetConf`: strip an unescaped `#` comment
together with the whitespace before it (a backslash immediately before the
`#` is removed instead, keeping the `#` literal), strip leading whitespace,
and — if anything is left — split at the first whitespace run into the
directive and an optional value, with the `<`-directive handling of the
source: a trailing `>` is dropped, and a `<`-directive without one clears
the value (syntax error).  `none` means the loop pulls the next line. -/
def confProcessLine (line : List Char) : Option (List Char × Option (List Char)) :=
  let buf :=
    match strchrIdx '#' line with
    | none => line
    | some k =>
      if 0 < k ∧ line.getD (k - 1) ' ' == '\\' then
        line.take (k - 1) ++ line.drop k
      else
        stripTrailingWs (line.take k)
  let buf := buf.dropWhile fun c => isCupsSpace c
  if buf = [] then none
  else
    match wsIdx buf with
    | none => some (buf, none)
    | some i =>
      let directive := buf.take i
      let rest := (buf.drop i).dropWhile fun c => isCupsSpace c
      if rest = [] then some (directive, none)
      else
        if buf.getD 0 ' ' == '<' then
          if rest.getLast? = some '>' then
            some (directive, some (stripTrailingWs rest.dropLast))
          else
            some (directive, none)
        else
          some (directive, some (stripTrailingWs rest))

/-- cupsFileGetConf, with the cupsFileGets line source modelled as the list
of lines it would deliver: pull lines until one survives processing. -/
def cupsFileGetConf : List (List Char) → Option (List Char × Option (List Char))
  | [] => none
  | l :: ls =>
    match confProcessLine l with
    | some r => some r
    | none => cupsFileGetConf ls

/-- The fixed gzip header this development uses for read-side members:
no flag bits, zero mtime, OS byte 3. -/
def gzHdr10 : List Nat := [0x1f, 0x8b, 8, 0, 0, 0, 0, 0, 0, 3]

/-- A complete well-formed gzip member over payload `d`: header, one stored
DEFLATE block, then the trailer with the little-endian CRC-32 and length. -/
def gzMemberBytes (d : List Nat) : List Nat :=
  gzHdr10 ++ storedDeflate d ++ le32 (crc32Z 0 d) ++ le32 d.length

theorem length_storedDeflate (d : List Nat) : (storedDeflate d).length = 5 + d.length := by
  simp [storedDeflate]; omega

theorem storedDeflate_ne_nil (d : List Nat) : storedDeflate d ≠ [] := by
  simp [storedDeflate]

theorem sniffOk_gzHdr (r : List Nat) : sniffOk (gzHdr10 ++ r) = true := by
  simp [sniffOk, gzHdr10]

theorem gzSkipHeader_gzHdr (r : List Nat) : gzSkipHeader (gzHdr10 ++ r) = some 10 := by
  simp [gzSkipHeader, gzHdr10]

theorem inflateBlocks_stored (fuel : Nat) (acc d rest : List Nat) (h : d.length < 65536) :
    inflateBlocks (fuel + 1) acc (storedDeflate d ++ rest) = some (acc ++ d, rest) := by
  have h1 : d.length % 256 + 256 * (d.length / 256 % 256) = d.length := by
    have := Nat.mod_add_div d.length 256
    have hlt : d.length / 256 < 256 := by omega
    rw [Nat.mod_eq_of_lt hlt]; omega
  have h2 : (d.length ^^^ 0xffff) % 256 + 256 * ((d.length ^^^ 0xffff) / 256 % 256)
      = (d.length ^^^ 0xffff) := by
    have hx : d.length ^^^ 0xffff < 65536 := by
      have := Nat.xor_lt_two_pow (show d.length < 2 ^ 16 by omega)
        (show 0xffff < 2 ^ 16 by norm_num)
      omega
    have := Nat.mod_add_div (d.length ^^^ 0xffff) 256
    have hlt : (d.length ^^^ 0xffff) / 256 < 256 := by omega
    rw [Nat.mod_eq_of_lt hlt]; omega
  simp only [storedDeflate, List.cons_append, inflateBlocks]
  norm_num [h1, h2]

theorem sniffPhase_fresh_gz (body : List Nat)
    (hlen : (gzHdr10 ++ body).length ≤ BUFSZ) :
    sniffPhase (freshR (gzHdr10 ++ body))
      = Sum.inr { freshR (gzHdr10 ++ body) with
                  fd := ⟨gzHdr10 ++ body, (gzHdr10 ++ body).length⟩,
                  availIn := body, crc := 0, compressed := true } := by
  simp only [sniffPhase, freshR, fdRead]
  norm_num [List.take_of_length_le hlen, sniffOk_gzHdr, gzSkipHeader_gzHdr]
  rw [List.drop_left' (show gzHdr10.length = 10 from rfl)]

theorem refillAvail_ne (fp : CF) (h : fp.availIn ≠ []) : refillAvail fp = Sum.inr fp := by
  simp [refillAvail, h]

theorem inflatePhase_member (fp : CF) (d t8 tail : List Nat)
    (heof : fp.eof = false)
    (hav : fp.availIn = storedDeflate d ++ (t8 ++ tail))
    (hcrc0 : fp.crc = 0)
    (hd : d ≠ [])
    (hdb : d.length ≤ BUFSZ)
    (ht : t8.length = 8)
    (htc : gzTrailerCrc t8 = crc32Z 0 d) :
    inflatePhase fp
      = Sum.inl ({ fp with
                   compressed := false, ptrIdx := some 0, buf := d,
                   availIn := tail, crc := crc32Z 0 d }, (d.length : Int)) := by
  have hd65 : d.length < 65536 := by have := hdb; simp [BUFSZ] at this; omega
  have hne : storedDeflate d ++ (t8 ++ tail) ≠ [] := by
    simp [storedDeflate]
  have hmin : min 8 (t8.length + tail.length) = 8 := by omega
  have hdb4 : d.length ≤ 4096 := hdb
  simp only [inflatePhase]
  rw [if_neg (by simp [heof])]
  rw [refillAvail_ne fp (by rw [hav]; exact hne)]
  simp only [inflateCore]
  norm_num [hav, hcrc0, hne, inflateBlocks_stored _ _ _ _ hd65, hd, hdb4, hmin, fdRead,
    List.drop_left' ht, List.take_left' ht, htc, BUFSZ, heof]

theorem cups_fill_ptrNone (fp : CF) (h : fp.ptrIdx = none) :
    cups_fill fp = fillLoop 4 fp := by
  simp [cups_fill, h]

theorem cups_fill_ptrSome (fp : CF) (i : Nat) (h : fp.ptrIdx = some i) :
    cups_fill fp = fillLoop 4 { fp with bufpos := fp.bufpos + fp.buf.length } := by
  simp [cups_fill, h]

theorem fillLoop_inl (fuel : Nat) (fp : CF) (r : CF × Int)
    (hcond : fp.ptrIdx = none ∨ fp.compressed = true)
    (hstep : fillStep fp = Sum.inl r) :
    fillLoop (fuel + 1) fp = r := by
  simp only [fillLoop, hstep]
  rw [if_pos hcond]

theorem fillLoop_inr (fuel : Nat) (fp fp1 : CF)
    (hcond : fp.ptrIdx = none ∨ fp.compressed = true)
    (hstep : fillStep fp = Sum.inr fp1) :
    fillLoop (fuel + 1) fp = fillLoop fuel fp1 := by
  simp only [fillLoop, hstep]
  rw [if_pos hcond]

theorem fillLoop_exit (fuel : Nat) (fp : CF) (i : Nat)
    (hptr : fp.ptrIdx = some i) (hcomp : fp.compressed = false) :
    fillLoop (fuel + 1) fp = fillRaw fp := by
  simp only [fillLoop]
  rw [if_neg]
  simp [hptr, hcomp]

theorem fillStep_sniff_inl (fp : CF) (r : CF × Int)
    (h : sniffPhase fp = Sum.inl r) : fillStep fp = Sum.inl r := by
  simp [fillStep, h]

theorem fillStep_sniff_inr (fp fp1 : CF)
    (h : sniffPhase fp = Sum.inr fp1) (hc : fp1.compressed = true) :
    fillStep fp = inflatePhase fp1 := by
  simp [fillStep, h, hc]

theorem fill_fresh_gz (d t8 tail : List Nat)
    (hd : d ≠ [])
    (ht : t8.length = 8)
    (htc : gzTrailerCrc t8 = crc32Z 0 d)
    (hlen : (gzHdr10 ++ (storedDeflate d ++ (t8 ++ tail))).length ≤ BUFSZ) :
    cups_fill (freshR (gzHdr10 ++ (storedDeflate d ++ (t8 ++ tail))))
      = ({ fd := ⟨gzHdr10 ++ (storedDeflate d ++ (t8 ++ tail)),
                  (gzHdr10 ++ (storedDeflate d ++ (t8 ++ tail))).length⟩,
           compressed := false, buf := d, ptrIdx := some 0, eof := false,
           pos := 0, bufpos := 0, availIn := tail, crc := crc32Z 0 d }, (d.length : Int)) := by
  have hdb : d.length ≤ BUFSZ := by
    have := hlen
    simp [gzHdr10, length_storedDeflate, BUFSZ] at this ⊢
    omega
  have hstep : fillStep (freshR (gzHdr10 ++ (storedDeflate d ++ (t8 ++ tail))))
      = Sum.inl ({ fd := ⟨gzHdr10 ++ (storedDeflate d ++ (t8 ++ tail)),
                        (gzHdr10 ++ (storedDeflate d ++ (t8 ++ tail))).length⟩,
                   compressed := false, buf := d, ptrIdx := some 0, eof := false,
                   pos := 0, bufpos := 0, availIn := tail, crc := crc32Z 0 d },
          (d.length : Int)) := by
    rw [fillStep_sniff_inr _ _ (sniffPhase_fresh_gz _ hlen) rfl,
      inflatePhase_member _ d t8 tail rfl rfl rfl hd hdb ht htc]
    rfl
  rw [cups_fill_ptrNone _ rfl, show (4 : Nat) = 3 + 1 from rfl,
    fillLoop_inl 3 _ _ (Or.inl rfl) hstep]

theorem sniffPhase_fresh_raw (data : List Nat)
    (hlen : data.length ≤ BUFSZ) (hsn : sniffOk data = false) :
    sniffPhase (freshR data)
      = Sum.inl ({ freshR data with
                   fd := ⟨data, data.length⟩,
                   ptrIdx := some 0, buf := data }, (data.length : Int)) := by
  simp only [sniffPhase, freshR, fdRead]
  norm_num [List.take_of_length_le hlen, hsn]

theorem fill_fresh_raw (data : List Nat)
    (hlen : data.length ≤ BUFSZ) (hsn : sniffOk data = false) :
    cups_fill (freshR data)
      = ({ freshR data with
           fd := ⟨data, data.length⟩,
           ptrIdx := some 0, buf := data }, (data.length : Int)) := by
  rw [cups_fill_ptrNone _ rfl, show (4 : Nat) = 3 + 1 from rfl,
    fillLoop_inl 3 _ _ (Or.inl rfl)
      (fillStep_sniff_inl _ _ (sniffPhase_fresh_raw data hlen hsn))]

theorem inflatePhase_member_badcrc (fp : CF) (d t8 tail : List Nat)
    (heof : fp.eof = false)
    (hav : fp.availIn = storedDeflate d ++ (t8 ++ tail))
    (hcrc0 : fp.crc = 0)
    (hdb : d.length ≤ BUFSZ)
    (ht : t8.length = 8)
    (htc : gzTrailerCrc t8 ≠ crc32Z 0 d) :
    inflatePhase fp
      = Sum.inl ({ fp with availIn := tail, crc := crc32Z 0 d, eof := true }, -1) := by
  have hd65 : d.length < 65536 := by have := hdb; simp [BUFSZ] at this; omega
  have hne : storedDeflate d ++ (t8 ++ tail) ≠ [] := by simp [storedDeflate]
  have hmin : min 8 (t8.length + tail.length) = 8 := by omega
  have hdb4 : d.length ≤ 4096 := hdb
  simp only [inflatePhase]
  rw [if_neg (by simp [heof])]
  rw [refillAvail_ne fp (by rw [hav]; exact hne)]
  simp only [inflateCore]
  norm_num [hav, hcrc0, hne, inflateBlocks_stored _ _ _ _ hd65, hdb4, hmin, fdRead,
    List.drop_left' ht, List.take_left' ht, htc, BUFSZ, heof]

theorem fill_fresh_gz_badcrc (d t8 tail : List Nat)
    (ht : t8.length = 8)
    (htc : gzTrailerCrc t8 ≠ crc32Z 0 d)
    (hlen : (gzHdr10 ++ (storedDeflate d ++ (t8 ++ tail))).length ≤ BUFSZ) :
    cups_fill (freshR (gzHdr10 ++ (storedDeflate d ++ (t8 ++ tail))))
      = ({ fd := ⟨gzHdr10 ++ (storedDeflate d ++ (t8 ++ tail)),
                  (gzHdr10 ++ (storedDeflate d ++ (t8 ++ tail))).length⟩,
           compressed := true, buf := [], ptrIdx := none, eof := true,
           pos := 0, bufpos := 0, availIn := tail, crc := crc32Z 0 d }, -1) := by
  have hdb : d.length ≤ BUFSZ := by
    have := hlen
    simp [gzHdr10, length_storedDeflate, BUFSZ] at this ⊢
    omega
  have hstep : fillStep (freshR (gzHdr10 ++ (storedDeflate d ++ (t8 ++ tail))))
      = Sum.inl ({ fd := ⟨gzHdr10 ++ (storedDeflate d ++ (t8 ++ tail)),
                        (gzHdr10 ++ (storedDeflate d ++ (t8 ++ tail))).length⟩,
                   compressed := true, buf := [], ptrIdx := none, eof := true,
                   pos := 0, bufpos := 0, availIn := tail, crc := crc32Z 0 d }, -1) := by
    rw [fillStep_sniff_inr _ _ (sniffPhase_fresh_gz _ hlen) rfl,
      inflatePhase_member_badcrc _ d t8 tail rfl rfl rfl hdb ht htc]
    rfl
  rw [cups_fill_ptrNone _ rfl, show (4 : Nat) = 3 + 1 from rfl,
    fillLoop_inl 3 _ _ (Or.inl rfl) hstep]

theorem fillRaw_eofAtEnd (fp : CF) (hoff : fp.fd.data.length ≤ fp.fd.offset) :
    fillRaw fp = ({ fp with
                    fd := { fp.fd with offset := fp.fd.offset + 0 },
                    eof := true, ptrIdx := some 0, buf := [] }, 0) := by
  simp only [fillRaw, fdRead]
  rw [List.drop_eq_nil_of_le hoff]
  norm_num

theorem fill_exhausted_atEnd (fp : CF) (i : Nat)
    (hptr : fp.ptrIdx = some i) (hcomp : fp.compressed = false)
    (hoff : fp.fd.data.length ≤ fp.fd.offset) :
    cups_fill fp = ({ fp with
                      bufpos := fp.bufpos + fp.buf.length,
                      eof := true, ptrIdx := some 0, buf := [] }, 0) := by
  rw [cups_fill_ptrSome _ i hptr, show (4 : Nat) = 3 + 1 from rfl,
    fillLoop_exit 3 { fp with bufpos := fp.bufpos + fp.buf.length } i hptr hcomp,
    fillRaw_eofAtEnd { fp with bufpos := fp.bufpos + fp.buf.length } hoff]
  rfl

theorem readLoop_buffered (fuel : Nat) (fp : CF) (n : Nat) (acc : List Nat)
    (hptr : fp.ptrIdx = some 0) (hn : 0 < n) (hnle : n ≤ fp.buf.length) :
    readLoop (fuel + 2) fp n acc
      = ({ fp with ptrIdx := some n, pos := fp.pos + n },
         ((acc.length + n : Nat) : Int), acc ++ fp.buf.take n) := by
  have hne : fp.buf ≠ [] := by
    intro h
    rw [h] at hnle
    simp at hnle
    omega
  have hnf : needFill fp = false := by simp [needFill, hptr, hne]
  have hmin : min (fp.buf.length - 0) n = n := by
    rw [Nat.sub_zero]; exact Nat.min_eq_right hnle
  conv_lhs => rw [show fuel + 2 = (fuel + 1) + 1 from rfl]
  simp only [readLoop]
  norm_num [hnf, hptr, hmin, List.length_take, hnle]
  omega
theorem readLoop_fill_consume (fuel : Nat) (fp st : CF) (n L : Nat) (acc : List Nat)
    (hnf : needFill fp = true)
    (hfill : cups_fill fp = (st, (L : Int)))
    (hLpos : 0 < L)
    (hst : st.ptrIdx = some 0)
    (hn : 0 < n) (hnle : n ≤ st.buf.length) :
    readLoop (fuel + 2) fp n acc
      = ({ st with ptrIdx := some n, pos := st.pos + n },
         ((acc.length + n : Nat) : Int), acc ++ st.buf.take n) := by
  have hmin : min (st.buf.length - 0) n = n := by
    rw [Nat.sub_zero]; exact Nat.min_eq_right hnle
  have hL : ¬ ((L : Int) ≤ 0) := by exact_mod_cast Nat.not_le.mpr (by exact_mod_cast hLpos)
  conv_lhs => rw [show fuel + 2 = (fuel + 1) + 1 from rfl]
  simp only [readLoop]
  norm_num [hnf, hfill, hL, hst, hmin, List.length_take, hnle]
  omega

theorem c10_truncated_header_raw (data : List Nat) (hlen : data.length < 10) :
    cups_fill (freshR data)
      = ({ freshR data with
           fd := ⟨data, data.length⟩, ptrIdx := some 0, buf := data },
         (data.length : Int)) := by
  have hsn : sniffOk data = false := by
    have : decide (10 ≤ data.length) = false := by
      rw [decide_eq_false_iff_not]
      omega
    simp [sniffOk, this]
  exact fill_fresh_raw data (by simp [BUFSZ]; omega) hsn

theorem c3_nongzip_passthrough (data : List Nat) (n : Nat)
    (hsn : sniffOk data = false) (hlen : data.length ≤ BUFSZ)
    (hn : 0 < n) (hnd : n ≤ data.length) :
    cups_fill (freshR data)
      = ({ freshR data with
           fd := ⟨data, data.length⟩, ptrIdx := some 0, buf := data },
         (data.length : Int))
    ∧ cupsFileRead (freshR data) n
      = ({ freshR data with
           fd := ⟨data, data.length⟩, ptrIdx := some n, pos := n, buf := data },
         (n : Int), data.take n) := by
  have hfill := fill_fresh_raw data hlen hsn
  refine ⟨hfill, ?_⟩
  have hL : 0 < data.length := by omega
  simp only [cupsFileRead]
  rw [if_neg (by omega), if_neg (by simp [freshR])]
  rw [show n + 1 = (n - 1) + 2 by omega]
  rw [readLoop_fill_consume (n - 1) (freshR data)
      ({ freshR data with
         fd := ⟨data, data.length⟩, ptrIdx := some 0, buf := data })
      n data.length [] rfl hfill hL rfl hn hnd]
  simp [freshR]

theorem c2_trailer_crc_mismatch (d t8 tail : List Nat)
    (ht : t8.length = 8)
    (htc : gzTrailerCrc t8 ≠ crc32Z 0 d)
    (hlen : (gzHdr10 ++ (storedDeflate d ++ (t8 ++ tail))).length ≤ BUFSZ) :
    (cups_fill (freshR (gzHdr10 ++ (storedDeflate d ++ (t8 ++ tail))))).2 = -1
    ∧ (cups_fill (freshR (gzHdr10 ++ (storedDeflate d ++ (t8 ++ tail))))).1.eof = true := by
  rw [fill_fresh_gz_badcrc d t8 tail ht htc hlen]
  exact ⟨rfl, rfl⟩

theorem c6aux_raw (data : List Nat) (n : Nat)
    (hsn : sniffOk data = false) (hlen : data.length ≤ BUFSZ)
    (hn : 0 < n) (hnd : n ≤ data.length) :
    (cupsFileRead (freshR data) n).2.2 = data.take n
    ∧ (cupsFileRead (freshR data) n).2.1 = (n : Int)
    ∧ (cupsFileRead (cupsFileRewind (cupsFileRead (freshR data) n).1).1 n).2.2 = data.take n
    ∧ (cupsFileRead (cupsFileRewind (cupsFileRead (freshR data) n).1).1 n).2.1 = (n : Int) := by
  have hr1 := (c3_nongzip_passthrough data n hsn hlen hn hnd).2
  rw [hr1]
  have hrw : cupsFileRewind ({ freshR data with
      fd := ⟨data, data.length⟩, ptrIdx := some n, pos := n, buf := data } : CF)
      = ({ freshR data with
           fd := ⟨data, data.length⟩, ptrIdx := some 0, pos := 0, buf := data }, 0) := by
    simp [cupsFileRewind, freshR]
  rw [hrw]
  have hr2 : cupsFileRead ({ freshR data with
      fd := ⟨data, data.length⟩, ptrIdx := some 0, pos := 0, buf := data } : CF) n
      = ({ freshR data with
           fd := ⟨data, data.length⟩, ptrIdx := some n, pos := n, buf := data },
         (n : Int), data.take n) := by
    simp only [cupsFileRead]
    rw [if_neg (by omega), if_neg (by simp [freshR])]
    rw [show n + 1 = (n - 1) + 2 by omega]
    rw [readLoop_buffered (n - 1) ({ freshR data with
        fd := ⟨data, data.length⟩, ptrIdx := some 0, pos := 0, buf := data })
      n [] rfl hn hnd]
    simp [freshR]
  rw [hr2]
  exact ⟨rfl, rfl, rfl, rfl⟩

def memberState (d t8 : List Nat) (i p : Nat) : CF :=
  { fd := ⟨gzHdr10 ++ (storedDeflate d ++ (t8 ++ [])),
           (gzHdr10 ++ (storedDeflate d ++ (t8 ++ []))).length⟩,
    compressed := false, buf := d, ptrIdx := some i, eof := false,
    pos := p, bufpos := 0, availIn := [], crc := crc32Z 0 d }

theorem c6aux_gz (d t8 : List Nat) (n : Nat)
    (hd : d ≠ [])
    (ht : t8.length = 8)
    (htc : gzTrailerCrc t8 = crc32Z 0 d)
    (hlen : (gzHdr10 ++ (storedDeflate d ++ (t8 ++ []))).length ≤ BUFSZ)
    (hn : 0 < n) (hnd : n ≤ d.length) :
    (cupsFileRead (freshR (gzHdr10 ++ (storedDeflate d ++ (t8 ++ [])))) n).2.2 = d.take n
    ∧ (cupsFileRead (freshR (gzHdr10 ++ (storedDeflate d ++ (t8 ++ [])))) n).2.1 = (n : Int)
    ∧ (cupsFileRead (cupsFileRewind
        (cupsFileRead (freshR (gzHdr10 ++ (storedDeflate d ++ (t8 ++ [])))) n).1).1 n).2.2
      = d.take n
    ∧ (cupsFileRead (cupsFileRewind
        (cupsFileRead (freshR (gzHdr10 ++ (storedDeflate d ++ (t8 ++ [])))) n).1).1 n).2.1
      = (n : Int) := by
  have hfill : cups_fill (freshR (gzHdr10 ++ (storedDeflate d ++ (t8 ++ []))))
      = (memberState d t8 0 0, ((d.length : Nat) : Int)) :=
    fill_fresh_gz d t8 [] hd ht htc hlen
  have hdpos : 0 < d.length := by
    cases d with
    | nil => exact absurd rfl hd
    | cons a l => simp
  have hr1 : cupsFileRead (freshR (gzHdr10 ++ (storedDeflate d ++ (t8 ++ [])))) n
      = (memberState d t8 n n, (n : Int), d.take n) := by
    simp only [cupsFileRead]
    rw [if_neg (by omega), if_neg (by simp [freshR])]
    rw [show n + 1 = (n - 1) + 2 by omega]
    rw [readLoop_fill_consume (n - 1) (freshR (gzHdr10 ++ (storedDeflate d ++ (t8 ++ []))))
        (memberState d t8 0 0) n d.length [] rfl hfill hdpos rfl hn hnd]
    simp [memberState]
  rw [hr1]
  have hrw : cupsFileRewind (memberState d t8 n n) = (memberState d t8 0 0, 0) := by
    simp [cupsFileRewind, memberState]
  rw [hrw]
  have hr2 : cupsFileRead (memberState d t8 0 0) n
      = (memberState d t8 n n, (n : Int), d.take n) := by
    simp only [cupsFileRead]
    rw [if_neg (by omega), if_neg (by simp [memberState])]
    rw [show n + 1 = (n - 1) + 2 by omega]
    rw [readLoop_buffered (n - 1) (memberState d t8 0 0) n [] rfl hn hnd]
    simp [memberState]
  rw [hr2]
  exact ⟨rfl, rfl, rfl, rfl⟩

theorem wfdWrite_nil (f : WFd) : wfdWrite f [] = (f, true) := rfl

theorem wfdWrite_ok (f : WFd) (bs : List Nat) (hb : f.broken = false) (hbs : bs ≠ []) :
    wfdWrite f bs = ({ f with written := f.written ++ bs }, true) := by
  simp [wfdWrite, hb, hbs]

theorem wfdWrite_broken (f : WFd) (bs : List Nat) (hb : f.broken = true) (hbs : bs ≠ []) :
    wfdWrite f bs = (f, false) := by
  simp [wfdWrite, hb, hbs]

theorem gzWriteHeader_ne_nil (t : Nat) : gzWriteHeader t ≠ [] := by
  simp [gzWriteHeader]

theorem cupsFileOpenW_false (t : Nat) :
    cupsFileOpenW t false
      = { fd := ⟨false, gzWriteHeader t⟩, compressed := true, buf := [], pos := 0,
          crc := 0, pending := [], finished := false, cbufOut := [],
          printfAlloc := false, printfSize := 0 } := by
  simp only [cupsFileOpenW]
  rw [wfdWrite_ok { broken := false, written := [] } _ rfl (gzWriteHeader_ne_nil t)]
  simp

theorem cupsFileOpenW_true (t : Nat) :
    cupsFileOpenW t true
      = { fd := ⟨true, []⟩, compressed := true, buf := [], pos := 0,
          crc := 0, pending := [], finished := false, cbufOut := [],
          printfAlloc := false, printfSize := 0 } := by
  simp only [cupsFileOpenW]
  rw [wfdWrite_broken { broken := true, written := [] } _ rfl (gzWriteHeader_ne_nil t)]

theorem cupsFileWrite_buffered (fp : WF) (bs : List Nat)
    (hbs : bs ≠ []) (hroom : fp.buf.length + bs.length ≤ BUFSZ) :
    cupsFileWrite fp bs = ({ fp with pos := fp.pos + bs.length, buf := fp.buf ++ bs }, true) := by
  simp only [cupsFileWrite]
  rw [if_neg hbs, if_neg (by omega)]
  simp only []
  rw [if_neg (by simp [BUFSZ] at hroom ⊢; omega)]

theorem cups_compress_noflush (fp : WF) (bs : List Nat)
    (hbs : bs ≠ []) (hcb : fp.cbufOut = []) :
    cups_compress fp bs
      = ({ fp with crc := crc32Z fp.crc bs, pending := fp.pending ++ bs }, true) := by
  simp only [cups_compress]
  rw [if_neg hbs]
  rw [hcb]
  norm_num [BUFSZ]

theorem storedDeflate_beq_nil (d : List Nat) : (storedDeflate d == ([] : List Nat)) = false := by
  rw [beq_eq_false_iff_ne]
  exact storedDeflate_ne_nil d

theorem drainLoop_emit (fp : WF)
    (hcb : fp.cbufOut = []) (hfin : fp.finished = false) (hb : fp.fd.broken = false) :
    drainLoop 4 fp false true
      = ({ fp with
           finished := true,
           fd := { broken := false, written := fp.fd.written ++ storedDeflate fp.pending } }, true) := by
  obtain ⟨⟨b, w⟩, comp, buf, pos, crc, pend, fin, cb, pa, ps⟩ := fp
  simp only at hcb hfin hb
  subst hcb hfin hb
  simp [drainLoop, wfdWrite, storedDeflate_ne_nil, storedDeflate_beq_nil]

theorem drainLoop_emit_broken (fp : WF)
    (hcb : fp.cbufOut = []) (hfin : fp.finished = false) (hb : fp.fd.broken = true) :
    drainLoop 4 fp false true = ({ fp with finished := true }, false) := by
  obtain ⟨⟨b, w⟩, comp, buf, pos, crc, pend, fin, cb, pa, ps⟩ := fp
  simp only at hcb hfin hb
  subst hcb hfin hb
  simp [drainLoop, wfdWrite, storedDeflate_ne_nil, storedDeflate_beq_nil]

theorem le32_append_ne_nil (a b : Nat) : le32 a ++ le32 b ≠ [] := by
  simp [le32]

theorem cupsFileWrite_nil (fp : WF) : cupsFileWrite fp [] = (fp, true) := rfl

theorem c4aux_close_trailer (bs : List Nat) (t : Nat) (hlen : bs.length ≤ 4091) :
    cupsFileClose (cupsFileWrite (cupsFileOpenW t false) bs).1
      = { status := true,
          written := gzWriteHeader t ++ (storedDeflate bs
            ++ (le32 (crc32Z 0 bs) ++ le32 (bs.length % 4294967296))),
          deflateEnded := true, freedBuffers := true, closedFd := true } := by
  have hmod : bs.length % 4294967296 = bs.length := Nat.mod_eq_of_lt (by omega)
  rw [hmod, cupsFileOpenW_false t]
  by_cases hbs : bs = []
  · subst hbs
    rw [cupsFileWrite_nil]
    simp only [cupsFileClose, cupsFileFlush, List.length_nil]
    rw [if_neg (show ¬ ((0:Nat) > 0) by omega)]
    rw [if_pos (show (true = true) ∧ (true = true) from ⟨rfl, rfl⟩)]
    rw [drainLoop_emit _ rfl rfl rfl]
    rw [wfdWrite_ok _ _ rfl (le32_append_ne_nil _ _)]
    simp [crc32Z]
  · have hpos : 0 < bs.length := List.length_pos.mpr hbs
    rw [cupsFileWrite_buffered _ bs hbs (by simp [BUFSZ]; omega)]
    simp only [cupsFileClose, cupsFileFlush]
    norm_num [hpos]
    rw [cups_compress_noflush _ bs hbs (by rfl)]
    norm_num
    rw [drainLoop_emit _ (by rfl) (by rfl) (by rfl)]
    rw [wfdWrite_ok _ _ (by rfl) (le32_append_ne_nil _ _)]
    simp

theorem c5aux_broken_close (bs : List Nat) (t : Nat) (hlen : bs.length ≤ 4091) :
    cupsFileClose (cupsFileWrite (cupsFileOpenW t true) bs).1
      = { status := false, written := [], deflateEnded := true,
          freedBuffers := true, closedFd := true } := by
  rw [cupsFileOpenW_true t]
  by_cases hbs : bs = []
  · subst hbs
    rw [cupsFileWrite_nil]
    simp only [cupsFileClose, cupsFileFlush, List.length_nil]
    rw [if_neg (show ¬ ((0:Nat) > 0) by omega)]
    rw [if_pos (show (true = true) ∧ (true = true) from ⟨rfl, rfl⟩)]
    rw [drainLoop_emit_broken _ rfl rfl rfl]
    rw [wfdWrite_broken _ _ rfl (le32_append_ne_nil _ _)]
  · have hpos : 0 < bs.length := List.length_pos.mpr hbs
    rw [cupsFileWrite_buffered _ bs hbs (by simp [BUFSZ]; omega)]
    simp only [cupsFileClose, cupsFileFlush]
    norm_num [hpos]
    rw [cups_compress_noflush _ bs hbs (by rfl)]
    norm_num
    rw [drainLoop_emit_broken _ (by rfl) (by rfl) (by rfl)]
    rw [wfdWrite_broken _ _ (by rfl) (le32_append_ne_nil _ _)]
    simp

def freshW : WF :=
  { fd := ⟨false, []⟩, compressed := false, buf := [], pos := 0, crc := 0,
    pending := [], finished := false, cbufOut := [], printfAlloc := false, printfSize := 0 }

theorem c9aux_overflow (s : List Nat) (hs : 65535 < s.length) :
    (cupsFilePrintf freshW s).2 = true
    ∧ (cupsFilePrintf freshW s).1.printfSize = 1024 := by
  have h1 : s.length ≥ 1024 := by omega
  constructor <;> simp [cupsFilePrintf, freshW, cBool, hs, h1]

theorem c9aux_grow (s : List Nat) (hs1 : 1024 ≤ s.length) (hs2 : s.length ≤ BUFSZ) :
    (cupsFilePrintf freshW s).2 = true
    ∧ (cupsFilePrintf freshW s).1.printfSize = s.length + 1
    ∧ (cupsFilePrintf freshW s).1.buf = s := by
  have hs2' : s.length ≤ 4096 := hs2
  have h1 : ¬ (s.length > 65535) := by omega
  have h2 : ¬ (4096 < s.length) := by omega
  refine ⟨?_, ?_, ?_⟩ <;>
    simp [cupsFilePrintf, freshW, cBool, hs1, h1, h2, BUFSZ]

theorem strchrIdx_first (c : Char) (xs r : List Char) (h : ∀ a ∈ xs, (a == c) = false) :
    strchrIdx c (xs ++ c :: r) = some xs.length := by
  induction xs with
  | nil => simp [strchrIdx]
  | cons a t ih =>
    have ha := h a (by simp)
    simp [strchrIdx, ha, ih fun x hx => h x (by simp [hx])]

theorem wsIdx_first (xs r : List Char) (h : ∀ a ∈ xs, isCupsSpace a = false) :
    wsIdx (xs ++ ' ' :: r) = some xs.length := by
  induction xs with
  | nil => simp [wsIdx, isCupsSpace]
  | cons a t ih =>
    have ha := h a (by simp)
    simp [wsIdx, ha, ih fun x hx => h x (by simp [hx])]

theorem dropWhile_head_false (p : Char → Bool) (l r : List Char)
    (hne : l ≠ []) (hh : ∀ a ∈ l, p a = false) :
    (l ++ r).dropWhile p = l ++ r := by
  cases l with
  | nil => exact absurd rfl hne
  | cons a t => simp [List.dropWhile_cons, hh a (by simp)]

theorem dropWhile_all_false (p : Char → Bool) (l : List Char)
    (hh : ∀ a ∈ l, p a = false) : l.dropWhile p = l := by
  cases l with
  | nil => rfl
  | cons a t => simp [List.dropWhile_cons, hh a (by simp)]

theorem stripTrailingWs_nonWsSuffix (x v : List Char) (hne : v ≠ [])
    (hv : ∀ a ∈ v, isCupsSpace a = false) :
    stripTrailingWs (x ++ v) = x ++ v := by
  unfold stripTrailingWs
  rw [List.reverse_append]
  rw [dropWhile_head_false _ v.reverse x.reverse (by simpa using hne)
    (fun a ha => hv a (by simpa using ha))]
  rw [← List.reverse_append, List.reverse_reverse]

theorem stripTrailingWs_append_ws (x : List Char) (c : Char) (h : isCupsSpace c = true) :
    stripTrailingWs (x ++ [c]) = stripTrailingWs x := by
  unfold stripTrailingWs
  rw [List.reverse_append]
  simp [List.dropWhile_cons, h]

theorem stripTrailingWs_all_nonWs (v : List Char) (hv : ∀ a ∈ v, isCupsSpace a = false) :
    stripTrailingWs v = v := by
  by_cases hne : v = []
  · subst hne; rfl
  · have := stripTrailingWs_nonWsSuffix [] v hne hv
    simpa using this

theorem c8aux_key_value_comment (key v comment : List Char)
    (hk : key ≠ [])
    (hkc : ∀ a ∈ key, isCupsSpace a = false ∧ (a == '#') = false)
    (hk0 : (key.getD 0 ' ' == '<') = false)
    (hv : v ≠ [])
    (hvc : ∀ a ∈ v, isCupsSpace a = false ∧ (a == '#') = false) :
    confProcessLine (key ++ (' ' :: (v ++ (' ' :: '#' :: ' ' :: comment))))
      = some (key, some v) := by
  have hline : key ++ (' ' :: (v ++ (' ' :: '#' :: ' ' :: comment)))
      = ((key ++ ' ' :: v) ++ [' ']) ++ '#' :: (' ' :: comment) := by
    simp
  have hxs : ∀ a ∈ (key ++ ' ' :: v) ++ [' '], (a == '#') = false := by
    intro a ha
    simp at ha
    rcases ha with ha | ha | ha | ha
    · exact (hkc a ha).2
    · subst ha; decide
    · exact (hvc a ha).2
    · subst ha; decide
  have hchr : strchrIdx '#' (key ++ (' ' :: (v ++ (' ' :: '#' :: ' ' :: comment))))
      = some ((key ++ ' ' :: v) ++ [' ']).length := by
    rw [hline]
    exact strchrIdx_first '#' _ _ hxs
  have hklen : 0 < ((key ++ ' ' :: v) ++ [' ']).length := by simp
  have hgetD : (key ++ (' ' :: (v ++ (' ' :: '#' :: ' ' :: comment)))).getD
      (((key ++ ' ' :: v) ++ [' ']).length - 1) ' ' = ' ' := by
    rw [hline]
    rw [List.getD_append _ _ ' ' _ (by simp)]
    have : ((key ++ ' ' :: v) ++ [' ']).length - 1 = (key ++ ' ' :: v).length := by simp
    rw [this]
    rw [List.getD_append_right _ _ ' ' _ (le_refl _)]
    simp
  have htake : (key ++ (' ' :: (v ++ (' ' :: '#' :: ' ' :: comment)))).take
      (((key ++ ' ' :: v) ++ [' ']).length) = (key ++ ' ' :: v) ++ [' '] := by
    rw [hline]
    exact List.take_left _ _
  have hstrip : stripTrailingWs ((key ++ ' ' :: v) ++ [' ']) = key ++ ' ' :: v := by
    rw [stripTrailingWs_append_ws _ ' ' (by decide)]
    rw [show key ++ ' ' :: v = (key ++ [' ']) ++ v by simp]
    exact stripTrailingWs_nonWsSuffix _ v hv fun a ha => (hvc a ha).1
  have hdrop : (key ++ ' ' :: v).dropWhile (fun c => isCupsSpace c) = key ++ ' ' :: v :=
    dropWhile_head_false _ key (' ' :: v) hk fun a ha => (hkc a ha).1
  have hws : wsIdx (key ++ ' ' :: v) = some key.length :=
    wsIdx_first key v fun a ha => (hkc a ha).1
  have htake2 : (key ++ ' ' :: v).take key.length = key := List.take_left _ _
  have hdrop2 : (key ++ ' ' :: v).drop key.length = ' ' :: v := List.drop_left _ _
  have hdropws : (' ' :: v).dropWhile (fun c => isCupsSpace c) = v := by
    rw [List.dropWhile_cons]
    simp only [show isCupsSpace ' ' = true by decide, if_pos]
    exact dropWhile_all_false _ v fun a ha => (hvc a ha).1
  have hg0 : (key ++ ' ' :: v).getD 0 ' ' = key.getD 0 ' ' := by
    cases key with
    | nil => exact absurd rfl hk
    | cons a t => simp
  obtain ⟨k, hkk⟩ : ∃ k, ((key ++ ' ' :: v) ++ [' ']).length = k := ⟨_, rfl⟩
  rw [hkk] at hchr hgetD htake hklen
  simp only [confProcessLine, hchr]
  rw [hgetD]
  rw [if_neg (show ¬ (0 < k ∧ ((' ' == '\\') = true)) from by simp)]
  rw [htake, hstrip, hdrop]
  rw [if_neg (show ¬ (key ++ ' ' :: v = []) from by simp [hk])]
  rw [hws]
  simp only [htake2, hdrop2, hdropws]
  rw [if_neg (show ¬ (v = []) from hv)]
  rw [hg0]
  rw [if_neg (show ¬ ((key.getD 0 ' ' == '<') = true) from by simpa using hk0)]
  rw [stripTrailingWs_all_nonWs v fun a ha => (hvc a ha).1]

def ptrLe (fp : CF) : Prop := ∀ i, fp.ptrIdx = some i → i ≤ fp.buf.length

theorem sniffPhase_inl_spec (fp : CF) (st : CF) (r : Int)
    (h : sniffPhase fp = Sum.inl (st, r)) :
    fp.ptrIdx = none ∧ st.pos = fp.pos ∧ st.bufpos = fp.bufpos
    ∧ ((st.eof = true ∧ st.ptrIdx = fp.ptrIdx ∧ st.buf = fp.buf ∧ r ≤ 0)
       ∨ (st.ptrIdx = some 0 ∧ st.eof = fp.eof ∧ r = (st.buf.length : Int))) := by
  unfold sniffPhase at h
  dsimp only at h
  split at h
  · split at h
    · simp only [Sum.inl.injEq, Prod.mk.injEq] at h
      obtain ⟨h1, h2⟩ := h
      subst h1 h2
      refine ⟨by assumption, rfl, rfl, Or.inr ⟨rfl, rfl, rfl⟩⟩
    · split at h
      · simp only [Sum.inl.injEq, Prod.mk.injEq] at h
        obtain ⟨h1, h2⟩ := h
        subst h1 h2
        refine ⟨by assumption, rfl, rfl, Or.inl ⟨rfl, rfl, rfl, by omega⟩⟩
      · exact absurd h (by simp)
  · exact absurd h (by simp)

theorem sniffPhase_inr_spec (fp : CF) (st : CF)
    (h : sniffPhase fp = Sum.inr st) :
    st.pos = fp.pos ∧ st.bufpos = fp.bufpos ∧ st.eof = fp.eof
    ∧ st.ptrIdx = fp.ptrIdx ∧ st.buf = fp.buf := by
  unfold sniffPhase at h
  dsimp only at h
  split at h
  · split at h
    · exact absurd h (by simp)
    · split at h
      · exact absurd h (by simp)
      · simp only [Sum.inr.injEq] at h
        subst h
        exact ⟨rfl, rfl, rfl, rfl, rfl⟩
  · simp only [Sum.inr.injEq] at h
    subst h
    exact ⟨rfl, rfl, rfl, rfl, rfl⟩


theorem refillAvail_inl_spec (fp : CF) (st : CF) (r : Int)
    (h : refillAvail fp = Sum.inl (st, r)) :
    st.pos = fp.pos ∧ st.bufpos = fp.bufpos ∧ st.eof = true
    ∧ st.ptrIdx = fp.ptrIdx ∧ st.buf = fp.buf ∧ r = 0 := by
  unfold refillAvail at h
  dsimp only at h
  split at h
  · split at h
    · simp only [Sum.inl.injEq, Prod.mk.injEq] at h
      obtain ⟨h1, h2⟩ := h
      subst h1 h2
      exact ⟨rfl, rfl, rfl, rfl, rfl, rfl⟩
    · exact absurd h (by simp)
  · exact absurd h (by simp)

theorem refillAvail_inr_spec (fp : CF) (st : CF)
    (h : refillAvail fp = Sum.inr st) :
    st.pos = fp.pos ∧ st.bufpos = fp.bufpos ∧ st.eof = fp.eof
    ∧ st.ptrIdx = fp.ptrIdx ∧ st.buf = fp.buf := by
  unfold refillAvail at h
  dsimp only at h
  split at h
  · split at h
    · exact absurd h (by simp)
    · simp only [Sum.inr.injEq] at h
      subst h
      exact ⟨rfl, rfl, rfl, rfl, rfl⟩
  · simp only [Sum.inr.injEq] at h
    subst h
    exact ⟨rfl, rfl, rfl, rfl, rfl⟩

theorem inflateCore_inl_spec (fp : CF) (st : CF) (r : Int)
    (h : inflateCore fp = Sum.inl (st, r)) :
    st.pos = fp.pos ∧ st.bufpos = fp.bufpos
    ∧ ((st.eof = true ∧ st.ptrIdx = fp.ptrIdx ∧ st.buf = fp.buf ∧ r ≤ 0)
       ∨ (st.ptrIdx = some 0 ∧ st.eof = fp.eof ∧ r = (st.buf.length : Int)
          ∧ 0 < st.buf.length)) := by
  unfold inflateCore at h
  dsimp only at h
  split at h
  · simp only [Sum.inl.injEq, Prod.mk.injEq] at h
    obtain ⟨h1, h2⟩ := h
    subst h1 h2
    exact ⟨rfl, rfl, Or.inl ⟨rfl, rfl, rfl, by omega⟩⟩
  · split at h
    · split at h
      · simp only [Sum.inl.injEq, Prod.mk.injEq] at h
        obtain ⟨h1, h2⟩ := h
        subst h1 h2
        exact ⟨rfl, rfl, Or.inl ⟨rfl, rfl, rfl, by omega⟩⟩
      · split at h
        · simp only [Sum.inl.injEq, Prod.mk.injEq] at h
          obtain ⟨h1, h2⟩ := h
          subst h1 h2
          exact ⟨rfl, rfl, Or.inl ⟨rfl, rfl, rfl, by omega⟩⟩
        · split at h
          · simp only [Sum.inl.injEq, Prod.mk.injEq] at h
            obtain ⟨h1, h2⟩ := h
            subst h1 h2
            refine ⟨rfl, rfl, Or.inr ⟨rfl, rfl, rfl, ?_⟩⟩
            dsimp only
            omega
          · exact absurd h (by simp)
    · simp only [Sum.inl.injEq, Prod.mk.injEq] at h
      obtain ⟨h1, h2⟩ := h
      subst h1 h2
      exact ⟨rfl, rfl, Or.inl ⟨rfl, rfl, rfl, by omega⟩⟩

theorem inflateCore_inr_spec (fp : CF) (st : CF)
    (h : inflateCore fp = Sum.inr st) :
    st.pos = fp.pos ∧ st.bufpos = fp.bufpos ∧ st.eof = fp.eof
    ∧ st.ptrIdx = some 0 ∧ st.buf = [] := by
  unfold inflateCore at h
  dsimp only at h
  split at h
  · exact absurd h (by simp)
  · split at h
    · split at h
      · exact absurd h (by simp)
      · split at h
        · exact absurd h (by simp)
        · split at h
          · exact absurd h (by simp)
          · simp only [Sum.inr.injEq] at h
            subst h
            refine ⟨rfl, rfl, rfl, rfl, ?_⟩
            simp_all
    · exact absurd h (by simp)

theorem inflatePhase_inl_spec (fp : CF) (st : CF) (r : Int)
    (h : inflatePhase fp = Sum.inl (st, r)) :
    st.pos = fp.pos ∧ st.bufpos = fp.bufpos
    ∧ ((st.eof = true ∧ st.ptrIdx = fp.ptrIdx ∧ st.buf = fp.buf ∧ r ≤ 0)
       ∨ (st.ptrIdx = some 0 ∧ st.eof = fp.eof ∧ r = (st.buf.length : Int)
          ∧ 0 < st.buf.length)) := by
  unfold inflatePhase at h
  split at h
  · simp only [Sum.inl.injEq, Prod.mk.injEq] at h
    obtain ⟨h1, h2⟩ := h
    subst h1 h2
    exact ⟨rfl, rfl, Or.inl ⟨by assumption, rfl, rfl, by omega⟩⟩
  · rename_i heof
    cases hre : refillAvail fp with
    | inl p =>
      rw [hre] at h
      simp only [Sum.inl.injEq] at h
      subst h
      obtain ⟨q1, q2, q3, q4, q5, q6⟩ := refillAvail_inl_spec fp st r hre
      exact ⟨q1, q2, Or.inl ⟨q3, q4, q5, by omega⟩⟩
    | inr fp1 =>
      rw [hre] at h
      simp only at h
      obtain ⟨q1, q2, q3, q4, q5⟩ := refillAvail_inr_spec fp fp1 hre
      obtain ⟨w1, w2, w3⟩ := inflateCore_inl_spec fp1 st r h
      refine ⟨by rw [w1, q1], by rw [w2, q2], ?_⟩
      rcases w3 with ⟨e1, e2, e3, e4⟩ | ⟨e1, e2, e3, e4⟩
      · exact Or.inl ⟨e1, by rw [e2, q4], by rw [e3, q5], e4⟩
      · exact Or.inr ⟨e1, by rw [e2, q3], e3, e4⟩

theorem inflatePhase_inr_spec (fp : CF) (st : CF)
    (h : inflatePhase fp = Sum.inr st) :
    st.pos = fp.pos ∧ st.bufpos = fp.bufpos ∧ st.eof = fp.eof
    ∧ st.ptrIdx = some 0 ∧ st.buf = [] := by
  unfold inflatePhase at h
  split at h
  · exact absurd h (by simp)
  · cases hre : refillAvail fp with
    | inl p =>
      rw [hre] at h
      exact absurd h (by simp)
    | inr fp1 =>
      rw [hre] at h
      simp only at h
      obtain ⟨q1, q2, q3, q4, q5⟩ := refillAvail_inr_spec fp fp1 hre
      obtain ⟨w1, w2, w3, w4, w5⟩ := inflateCore_inr_spec fp1 st h
      exact ⟨by rw [w1, q1], by rw [w2, q2], by rw [w3, q3], w4, w5⟩

theorem fillStep_inl_spec (fp : CF) (st : CF) (r : Int)
    (h : fillStep fp = Sum.inl (st, r)) :
    st.pos = fp.pos ∧ st.bufpos = fp.bufpos
    ∧ ((st.eof = true ∧ st.ptrIdx = fp.ptrIdx ∧ st.buf = fp.buf ∧ r ≤ 0)
       ∨ (st.ptrIdx = some 0 ∧ st.eof = fp.eof ∧ r = (st.buf.length : Int)
          ∧ 0 < st.buf.length)
       ∨ (fp.ptrIdx = none ∧ st.ptrIdx = some 0 ∧ st.eof = fp.eof
          ∧ r = (st.buf.length : Int))) := by
  unfold fillStep at h
  cases hsn : sniffPhase fp with
  | inl p =>
    rw [hsn] at h
    simp only [Sum.inl.injEq] at h
    subst h
    obtain ⟨q0, q1, q2, q3⟩ := sniffPhase_inl_spec fp st r hsn
    rcases q3 with ⟨e1, e2, e3, e4⟩ | ⟨e1, e2, e3⟩
    · exact ⟨q1, q2, Or.inl ⟨e1, e2, e3, e4⟩⟩
    · exact ⟨q1, q2, Or.inr (Or.inr ⟨q0, e1, e2, e3⟩)⟩
  | inr fp1 =>
    rw [hsn] at h
    simp only at h
    obtain ⟨q1, q2, q3, q4, q5⟩ := sniffPhase_inr_spec fp fp1 hsn
    split at h
    · obtain ⟨w1, w2, w3⟩ := inflatePhase_inl_spec fp1 st r h
      refine ⟨by rw [w1, q1], by rw [w2, q2], ?_⟩
      rcases w3 with ⟨e1, e2, e3, e4⟩ | ⟨e1, e2, e3, e4⟩
      · exact Or.inl ⟨e1, by rw [e2, q4], by rw [e3, q5], e4⟩
      · exact Or.inr (Or.inl ⟨e1, by rw [e2, q3], e3, e4⟩)
    · exact absurd h (by simp)

theorem fillStep_inr_spec (fp : CF) (st : CF)
    (h : fillStep fp = Sum.inr st) :
    st.pos = fp.pos ∧ st.bufpos = fp.bufpos ∧ st.eof = fp.eof
    ∧ (st.ptrIdx = fp.ptrIdx ∧ st.buf = fp.buf ∨ st.ptrIdx = some 0 ∧ st.buf = []) := by
  unfold fillStep at h
  cases hsn : sniffPhase fp with
  | inl p =>
    rw [hsn] at h
    exact absurd h (by simp)
  | inr fp1 =>
    rw [hsn] at h
    simp only at h
    obtain ⟨q1, q2, q3, q4, q5⟩ := sniffPhase_inr_spec fp fp1 hsn
    split at h
    · obtain ⟨w1, w2, w3, w4, w5⟩ := inflatePhase_inr_spec fp1 st h
      exact ⟨by rw [w1, q1], by rw [w2, q2], by rw [w3, q3], Or.inr ⟨w4, w5⟩⟩
    · simp only [Sum.inr.injEq] at h
      subst h
      exact ⟨q1, q2, q3, Or.inl ⟨q4, q5⟩⟩

theorem fillRaw_spec (fp : CF) :
    (fillRaw fp).1.pos = fp.pos ∧ (fillRaw fp).1.bufpos = fp.bufpos
    ∧ (fillRaw fp).1.ptrIdx = some 0
    ∧ (((fillRaw fp).1.eof = true ∧ (fillRaw fp).2 = 0)
       ∨ ((fillRaw fp).2 = ((fillRaw fp).1.buf.length : Int)
          ∧ 0 < (fillRaw fp).2 ∧ (fillRaw fp).1.eof = false))
    ∧ ((fillRaw fp).2 ≤ 0 → (fillRaw fp).1.eof = true) := by
  unfold fillRaw
  dsimp only
  split
  · exact ⟨rfl, rfl, rfl, Or.inl ⟨rfl, rfl⟩, fun _ => rfl⟩
  · rename_i hne
    refine ⟨rfl, rfl, rfl, Or.inr ⟨rfl, by dsimp only; omega, rfl⟩, ?_⟩
    intro hr
    exfalso
    dsimp only at hr
    omega

theorem fillLoop_spec (fuel : Nat) (fp : CF) :
    (fp.pos = fp.bufpos → posInv (fillLoop fuel fp).1)
    ∧ (ptrLe fp → ptrLe (fillLoop fuel fp).1)
    ∧ (fp.eof = false → 0 < (fillLoop fuel fp).2 → (fillLoop fuel fp).1.eof = false)
    ∧ (0 < (fillLoop fuel fp).2 → (fillLoop fuel fp).1.ptrIdx = some 0)
    ∧ ((fp.ptrIdx = none → fp.pos = fp.bufpos) → (fillLoop fuel fp).2 ≤ 0
        → posInv (fillLoop fuel fp).1) := by
  induction fuel generalizing fp with
  | zero =>
    refine ⟨?_, ?_, ?_, ?_, ?_⟩ <;> simp [fillLoop, posInv, ptrLe]
  | succ fuel ih =>
    by_cases hcond : fp.ptrIdx = none ∨ fp.compressed = true
    · cases hfs : fillStep fp with
      | inl p =>
        rw [fillLoop_inl fuel fp p hcond hfs]
        obtain ⟨q1, q2, q3⟩ := fillStep_inl_spec fp p.1 p.2 (by rw [hfs])
        refine ⟨?_, ?_, ?_, ?_, ?_⟩
        · intro hJ heof
          rcases q3 with ⟨e1, _, _, _⟩ | ⟨e1, _, _, _⟩ | ⟨_, e1, _, _⟩
          · rw [heof] at e1; cases e1
          · rw [e1]; simp only [Option.getD_some, Nat.add_zero]; rw [q1, q2, hJ]
          · rw [e1]; simp only [Option.getD_some, Nat.add_zero]; rw [q1, q2, hJ]
        · intro hle i hi
          rcases q3 with ⟨_, e2, e3, _⟩ | ⟨e2, _, _, _⟩ | ⟨_, e2, _, _⟩
          · rw [e2] at hi; rw [e3]; exact hle i hi
          · rw [e2] at hi; cases hi; omega
          · rw [e2] at hi; cases hi; omega
        · intro heof hr
          rcases q3 with ⟨_, _, _, e4⟩ | ⟨_, e3, _, _⟩ | ⟨_, _, e3, _⟩
          · omega
          · rw [e3, heof]
          · rw [e3, heof]
        · intro hr
          rcases q3 with ⟨_, _, _, e4⟩ | ⟨e2, _, _, _⟩ | ⟨_, e2, _, _⟩
          · omega
          · exact e2
          · exact e2
        · intro hJn hr
          intro heof
          rcases q3 with ⟨e1, _, _, _⟩ | ⟨e1, _, e3, e4⟩ | ⟨e0, e1, _, _⟩
          · rw [heof] at e1; cases e1
          · rw [e3] at hr; omega
          · rw [e1]; simp only [Option.getD_some, Nat.add_zero]
            rw [q1, q2, hJn e0]
      | inr st =>
        rw [fillLoop_inr fuel fp st hcond hfs]
        obtain ⟨q1, q2, q3, q4⟩ := fillStep_inr_spec fp st hfs
        obtain ⟨w1, w2, w3, w4, w5⟩ := ih st
        refine ⟨?_, ?_, ?_, ?_, ?_⟩
        · intro hJ
          exact w1 (by rw [q1, q2, hJ])
        · intro hle
          refine w2 ?_
          intro i hi
          rcases q4 with ⟨e1, e2⟩ | ⟨e1, e2⟩
          · rw [e1] at hi; rw [e2]; exact hle i hi
          · rw [e1] at hi; cases hi; omega
        · intro heof
          exact w3 (by rw [q3, heof])
        · exact w4
        · intro hJn
          refine w5 ?_
          intro hnone
          rcases q4 with ⟨e1, e2⟩ | ⟨e1, e2⟩
          · rw [e1] at hnone; rw [q1, q2, hJn hnone]
          · rw [e1] at hnone; cases hnone
    · have hptr : ∃ i, fp.ptrIdx = some i := by
        cases hp : fp.ptrIdx with
        | none => exact absurd (Or.inl hp) hcond
        | some i => exact ⟨i, rfl⟩
      obtain ⟨i, hp⟩ := hptr
      have hcomp : fp.compressed = false := by
        cases hc : fp.compressed
        · rfl
        · exact absurd (Or.inr hc) hcond
      rw [fillLoop_exit fuel fp i hp hcomp]
      obtain ⟨q1, q2, q3, q4, q5⟩ := fillRaw_spec fp
      refine ⟨?_, ?_, ?_, ?_, ?_⟩
      · intro hJ heof
        rw [q3]; simp only [Option.getD_some, Nat.add_zero]; rw [q1, q2, hJ]
      · intro hle j hj
        rw [q3] at hj; cases hj; omega
      · intro heof hr
        rcases q4 with ⟨_, e⟩ | ⟨_, _, e⟩
        · omega
        · exact e
      · intro hr
        exact q3
      · intro hJn hr heof
        rw [q5 hr] at heof; cases heof

theorem cups_fill_spec (fp : CF)
    (hinv : posInv fp) (hle : ptrLe fp) (heof : fp.eof = false)
    (hex : ∀ i, fp.ptrIdx = some i → fp.buf.length ≤ i) :
    posInv (cups_fill fp).1 ∧ ptrLe (cups_fill fp).1
    ∧ (0 < (cups_fill fp).2 → (cups_fill fp).1.eof = false
        ∧ (cups_fill fp).1.ptrIdx = some 0) := by
  unfold cups_fill
  cases hp : fp.ptrIdx with
  | none =>
    simp only [Option.isSome_none, Bool.false_eq_true, if_neg, ite_false, if_false]
    have hJ : fp.pos = fp.bufpos := by
      have := hinv heof
      rw [hp] at this
      simpa using this
    obtain ⟨w1, w2, w3, w4, w5⟩ := fillLoop_spec 4 fp
    exact ⟨w1 hJ, w2 hle, fun hr => ⟨w3 heof hr, w4 hr⟩⟩
  | some i =>
    simp only [Option.isSome_some, ite_true, if_true]
    have hieq : i = fp.buf.length := le_antisymm (hle i hp) (hex i hp)
    have hJ : fp.pos = fp.bufpos + fp.buf.length := by
      have := hinv heof
      rw [hp] at this
      simpa [hieq] using this
    obtain ⟨w1, w2, w3, w4, w5⟩ :=
      fillLoop_spec 4 { fp with ptrIdx := some i, bufpos := fp.bufpos + fp.buf.length }
    refine ⟨w1 hJ, w2 ?_, fun hr => ⟨w3 heof hr, w4 hr⟩⟩
    intro j hj
    simp only [Option.some.injEq] at hj
    subst hj
    exact le_of_eq hieq

theorem cups_fill_noJ (fp : CF) (h : fp.ptrIdx = none → fp.pos = fp.bufpos) :
    ((cups_fill fp).2 ≤ 0 → posInv (cups_fill fp).1)
    ∧ (0 < (cups_fill fp).2 → (cups_fill fp).1.ptrIdx = some 0) := by
  unfold cups_fill
  cases hp : fp.ptrIdx with
  | none =>
    simp only [Option.isSome_none, Bool.false_eq_true, if_neg, ite_false, if_false]
    obtain ⟨w1, w2, w3, w4, w5⟩ := fillLoop_spec 4 fp
    exact ⟨w5 (fun _ => h hp), w4⟩
  | some i =>
    simp only [Option.isSome_some, ite_true, if_true]
    obtain ⟨w1, w2, w3, w4, w5⟩ :=
      fillLoop_spec 4 { fp with ptrIdx := some i, bufpos := fp.bufpos + fp.buf.length }
    refine ⟨w5 ?_, w4⟩
    intro hn
    simp only at hn
    cases hn

theorem needFill_exhausted (fp : CF) (hnf : needFill fp = true) :
    ∀ i, fp.ptrIdx = some i → fp.buf.length ≤ i := by
  intro i hi
  unfold needFill at hnf
  rw [hi] at hnf
  exact of_decide_eq_true hnf

def consumeSt (fp : CF) (bytes : Nat) : CF :=
  { fp with
    ptrIdx := some (fp.ptrIdx.getD 0 + min (fp.buf.length - fp.ptrIdx.getD 0) bytes),
    pos := fp.pos + min (fp.buf.length - fp.ptrIdx.getD 0) bytes }

theorem consume_state_spec (fp : CF) (bytes : Nat) (i : Nat)
    (hinv : posInv fp) (hle : ptrLe fp) (hp : fp.ptrIdx = some i) :
    posInv (consumeSt fp bytes) ∧ ptrLe (consumeSt fp bytes) := by
  unfold consumeSt
  rw [hp]
  constructor
  · intro heof
    have h1 := hinv heof
    rw [hp] at h1
    simp only [Option.getD_some] at h1 ⊢
    omega
  · intro j hj
    simp only [Option.getD_some, Option.some.injEq] at hj
    have h2 := hle i hp
    subst hj
    simp only
    omega

theorem readLoop_spec (fuel : Nat) (fp : CF) (bytes : Nat) (acc : List Nat)
    (hinv : posInv fp) (hle : ptrLe fp) (heof : fp.eof = false) :
    posInv (readLoop fuel fp bytes acc).1 ∧ ptrLe (readLoop fuel fp bytes acc).1 := by
  induction fuel generalizing fp bytes acc with
  | zero => exact ⟨hinv, hle⟩
  | succ fuel ih =>
    rw [readLoop]
    by_cases hb : bytes = 0
    · rw [if_pos hb]
      exact ⟨hinv, hle⟩
    · rw [if_neg hb]
      dsimp only
      by_cases hnf : needFill fp = true
      · rw [if_pos hnf]
        obtain ⟨w1, w2, w3⟩ := cups_fill_spec fp hinv hle heof (needFill_exhausted fp hnf)
        by_cases hr : (cups_fill fp).2 ≤ 0
        · rw [if_pos hr]
          exact ⟨w1, w2⟩
        · rw [if_neg hr]
          obtain ⟨he, hp⟩ := w3 (by omega)
          obtain ⟨c1, c2⟩ := consume_state_spec (cups_fill fp).1 bytes 0 w1 w2 hp
          exact ih _ _ _ c1 c2 he
      · rw [if_neg hnf]
        have hp : ∃ i, fp.ptrIdx = some i := by
          unfold needFill at hnf
          cases hx : fp.ptrIdx with
          | none => rw [hx] at hnf; simp at hnf
          | some i => exact ⟨i, rfl⟩
        obtain ⟨i, hp⟩ := hp
        obtain ⟨c1, c2⟩ := consume_state_spec fp bytes i hinv hle hp
        exact ih _ _ _ c1 c2 heof

theorem cupsFileRead_spec (fp : CF) (bytes : Nat)
    (hinv : posInv fp) (hle : ptrLe fp) :
    posInv (cupsFileRead fp bytes).1 ∧ ptrLe (cupsFileRead fp bytes).1 := by
  unfold cupsFileRead
  split
  · exact ⟨hinv, hle⟩
  · split
    · exact ⟨hinv, hle⟩
    · rename_i hb he
      exact readLoop_spec (bytes + 1) fp bytes [] hinv hle (by
        cases hx : fp.eof
        · rfl
        · exact absurd hx he)

theorem cupsFileRewind_spec (fp : CF) (hle : ptrLe fp) :
    posInv (cupsFileRewind fp).1 ∧ ptrLe (cupsFileRewind fp).1 := by
  unfold cupsFileRewind
  dsimp only
  split
  · rename_i hbp
    split
    · refine ⟨?_, ?_⟩
      · intro _
        simp [hbp]
      · intro i hi
        simp only [Option.some.injEq] at hi
        subst hi
        simp
    · refine ⟨?_, ?_⟩
      · intro heof
        rename_i hns
        simp only [Bool.not_eq_true, Option.not_isSome, Option.isNone_iff_eq_none] at hns
        simp [hbp, hns]
      · intro i hi
        simp only at hi
        exact hle i hi
  · refine ⟨?_, ?_⟩
    · intro _
      simp
    · intro i hi
      simp at hi

theorem seekLoopB_spec (fuel : Nat) (fp : CF) (pos : Nat) (st : CF) (r : Int)
    (hH : fp.ptrIdx = none → fp.pos = fp.bufpos)
    (h : seekLoopB fuel fp pos = some (st, r)) :
    posInv st := by
  induction fuel generalizing fp with
  | zero => exact absurd h (by simp [seekLoopB])
  | succ fuel ih =>
    rw [seekLoopB] at h
    dsimp only at h
    obtain ⟨w5, w4⟩ := cups_fill_noJ fp hH
    split at h
    · rename_i hr
      simp only [Option.some.injEq, Prod.mk.injEq] at h
      obtain ⟨h1, h2⟩ := h
      subst h1 h2
      exact w5 hr
    · split at h
      · rename_i hr hcov
        simp only [Option.some.injEq, Prod.mk.injEq] at h
        obtain ⟨h1, h2⟩ := h
        subst h1 h2
        intro heof
        simp only [Option.getD_some]
        omega
      · rename_i hr hcov
        exact ih (cups_fill fp).1 (by
          intro hn
          rw [w4 (by omega)] at hn
          cases hn) h

theorem cupsFileSeek_spec (fuel : Nat) (fp : CF) (pos : Nat) (st : CF) (r : Int)
    (hinv : posInv fp) (hle : ptrLe fp) (heof : fp.eof = false)
    (h : cupsFileSeek fuel fp pos = some (st, r)) :
    posInv st := by
  have hHfp : fp.ptrIdx = none → fp.pos = fp.bufpos := by
    intro hn
    have := hinv heof
    rw [hn] at this
    simpa using this
  unfold cupsFileSeek at h
  dsimp only at h
  split at h
  · simp only [Option.some.injEq] at h
    have hfst : (cupsFileRewind fp).1 = st := by rw [h]
    rw [← hfst]
    exact (cupsFileRewind_spec fp hle).1
  · split at h
    · rename_i heq
      split at heq
      · split at heq
        · rename_i hcov
          simp only [Option.some.injEq] at heq
          rw [← heq] at h
          simp only [Option.some.injEq, Prod.mk.injEq] at h
          obtain ⟨h1, h2⟩ := h
          subst h1
          intro _
          simp only [Option.getD_some]
          omega
        · cases heq
      · cases heq
    · rename_i heq
      split at h
      · rename_i p hpre
        split at hpre
        · rename_i hcn
          split at hpre
          · simp only [Sum.inl.injEq] at hpre
            subst hpre
            simp only [Option.some.injEq, Prod.mk.injEq] at h
            obtain ⟨h1, h2⟩ := h
            subst h1
            rename_i hr
            exact (cups_fill_noJ fp hHfp).1 hr
          · cases hpre
        · cases hpre
      · rename_i fp0 hpre
        have hH0 : fp0.ptrIdx = none → fp0.pos = fp0.bufpos := by
          intro hn
          split at hpre
          · rename_i hcn
            split at hpre
            · cases hpre
            · rename_i hr
              simp only [Sum.inr.injEq] at hpre
              subst hpre
              have := (cups_fill_noJ fp hHfp).2 (by omega)
              rw [this] at hn
              cases hn
          · simp only [Sum.inr.injEq] at hpre
            subst hpre
            exact hHfp hn
        split at h
        · split at h
          · exact seekLoopB_spec fuel _ pos st r (fun _ => rfl) h
          · simp only [Option.some.injEq, Prod.mk.injEq] at h
            obtain ⟨h1, h2⟩ := h
            subst h1
            intro _
            simp
        · split at h
          · exact seekLoopB_spec fuel { fp0 with eof := false } pos st r
              (fun hn => hH0 hn) h
          · simp only [Option.some.injEq, Prod.mk.injEq] at h
            obtain ⟨h1, h2⟩ := h
            subst h1
            intro _
            simp

/-- C1: the claim is refuted.  Two byte-for-byte concatenated gzip members,
each individually valid (the trailer CRC of each matches the CRC-32 of its
payload), do NOT read back as the concatenation of their payloads: reading 2
bytes returns only the first member's single payload byte, the read count is
1, and the handle reports end-of-file.  After the first member's trailer is
validated, `cups_fill` clears `compressed` while leaving the cursor non-NULL,
so the next fill raw-reads instead of re-sniffing a gzip header, and the
second member's bytes already consumed into the decompression input are
discarded. -/
theorem C1_concatenated_members_not_transparent :
    gzTrailerCrc (le32 (crc32Z 0 [1]) ++ le32 1) = crc32Z 0 [1]
    ∧ gzTrailerCrc (le32 (crc32Z 0 [2]) ++ le32 1) = crc32Z 0 [2]
    ∧ (cupsFileRead (freshR (gzMemberBytes [1] ++ gzMemberBytes [2])) 2).2.2 = [1]
    ∧ (cupsFileRead (freshR (gzMemberBytes [1] ++ gzMemberBytes [2])) 2).2.1 = 1
    ∧ (cupsFileRead (freshR (gzMemberBytes [1] ++ gzMemberBytes [2])) 2).1.eof = true
    ∧ (cupsFileRead (freshR (gzMemberBytes [1] ++ gzMemberBytes [2])) 2).2.2 ≠ [1, 2] := by
  refine ⟨by decide, by decide, by decide, by decide, by decide, by decide⟩

/-- C2: for every compressed member whose 8-byte trailer stores a CRC-32
different from the CRC-32 accumulated over the decompressed output, the fill
that reaches the end of the member returns -1 and sets the handle's eof
flag. -/
theorem C2_crc_mismatch_read_fails (d t8 tail : List Nat)
    (ht : t8.length = 8)
    (htc : gzTrailerCrc t8 ≠ crc32Z 0 d)
    (hlen : (gzHdr10 ++ (storedDeflate d ++ (t8 ++ tail))).length ≤ BUFSZ) :
    (cups_fill (freshR (gzHdr10 ++ (storedDeflate d ++ (t8 ++ tail))))).2 = -1
    ∧ (cups_fill (freshR (gzHdr10 ++ (storedDeflate d ++ (t8 ++ tail))))).1.eof = true :=
  c2_trailer_crc_mismatch d t8 tail ht htc hlen

theorem C2_crc_mismatch_read_fails_witness :
    (cups_fill (freshR (gzHdr10 ++ (storedDeflate [1] ++ (([165, 223, 5, 164] ++ le32 1) ++ []))))).2 = -1
    ∧ (cups_fill (freshR (gzHdr10 ++ (storedDeflate [1] ++ (([165, 223, 5, 164] ++ le32 1) ++ []))))).1.eof = true :=
  C2_crc_mismatch_read_fails [1] ([165, 223, 5, 164] ++ le32 1) []
    (by decide) (by decide) (by decide)

/-- C3: a file whose initial bytes fail the gzip-header sniff is treated as
uncompressed: the first fill returns all the raw bytes unchanged (including
the bytes consumed for sniffing) with `compressed` left false, and a read
returns exactly the file's own bytes. -/
theorem C3_nongzip_raw_passthrough (data : List Nat) (n : Nat)
    (hsn : sniffOk data = false) (hlen : data.length ≤ BUFSZ)
    (hn : 0 < n) (hnd : n ≤ data.length) :
    cups_fill (freshR data)
      = ({ freshR data with
           fd := ⟨data, data.length⟩, ptrIdx := some 0, buf := data },
         (data.length : Int))
    ∧ cupsFileRead (freshR data) n
      = ({ freshR data with
           fd := ⟨data, data.length⟩, ptrIdx := some n, pos := n, buf := data },
         (n : Int), data.take n) :=
  c3_nongzip_passthrough data n hsn hlen hn hnd

theorem C3_nongzip_raw_passthrough_witness :
    cups_fill (freshR [65, 66, 67])
      = ({ freshR [65, 66, 67] with
           fd := ⟨[65, 66, 67], 3⟩, ptrIdx := some 0, buf := [65, 66, 67] }, 3)
    ∧ cupsFileRead (freshR [65, 66, 67]) 2
      = ({ freshR [65, 66, 67] with
           fd := ⟨[65, 66, 67], 3⟩, ptrIdx := some 2, pos := 2, buf := [65, 66, 67] },
         2, [65, 66]) :=
  C3_nongzip_raw_passthrough [65, 66, 67] 2 (by decide) (by decide) (by decide) (by decide)

/-- C4: closing a compressed write handle flushes the buffered bytes through
the compressor, drains the compressor to completion, and then appends exactly
8 trailer bytes: the 4-byte little-endian CRC-32 of every uncompressed byte
written, followed by the 4-byte little-endian uncompressed length modulo
2^32. -/
theorem C4_close_appends_crc_and_length (bs : List Nat) (t : Nat)
    (hlen : bs.length ≤ 4091) :
    cupsFileClose (cupsFileWrite (cupsFileOpenW t false) bs).1
      = { status := true,
          written := gzWriteHeader t ++ (storedDeflate bs
            ++ (le32 (crc32Z 0 bs) ++ le32 (bs.length % 4294967296))),
          deflateEnded := true, freedBuffers := true, closedFd := true } :=
  c4aux_close_trailer bs t hlen

theorem C4_close_appends_crc_and_length_witness :
    cupsFileClose (cupsFileWrite (cupsFileOpenW 0 false) [7, 8]).1
      = { status := true,
          written := gzWriteHeader 0 ++ (storedDeflate [7, 8]
            ++ (le32 (crc32Z 0 [7, 8]) ++ le32 (2 % 4294967296))),
          deflateEnded := true, freedBuffers := true, closedFd := true } :=
  C4_close_appends_crc_and_length [7, 8] 0 (by decide)

/-- C5: when every descriptor write fails (a broken descriptor), closing a
compressed write handle fails — the close result's status is false and
nothing was written — yet the compressor state was still torn down, the
handle's buffers freed, and the descriptor closed. -/
theorem C5_drain_failure_still_releases (bs : List Nat) (t : Nat)
    (hlen : bs.length ≤ 4091) :
    cupsFileClose (cupsFileWrite (cupsFileOpenW t true) bs).1
      = { status := false, written := [], deflateEnded := true,
          freedBuffers := true, closedFd := true } :=
  c5aux_broken_close bs t hlen

theorem C5_drain_failure_still_releases_witness :
    cupsFileClose (cupsFileWrite (cupsFileOpenW 0 true) [7, 8]).1
      = { status := false, written := [], deflateEnded := true,
          freedBuffers := true, closedFd := true } :=
  C5_drain_failure_still_releases [7, 8] 0 (by decide)

/-- C6: read N bytes, rewind to position 0, read N bytes again: both reads
return the same N bytes and the same count, for an uncompressed file (the
first half of the conjunction) and for a gzip member (the second half). -/
theorem C6_read_rewind_read (data : List Nat) (n : Nat) (d t8 : List Nat) (m : Nat)
    (hsn : sniffOk data = false) (hlen : data.length ≤ BUFSZ)
    (hn : 0 < n) (hnd : n ≤ data.length)
    (hd : d ≠ []) (ht : t8.length = 8) (htc : gzTrailerCrc t8 = crc32Z 0 d)
    (hlen2 : (gzHdr10 ++ (storedDeflate d ++ (t8 ++ []))).length ≤ BUFSZ)
    (hm : 0 < m) (hmd : m ≤ d.length) :
    ((cupsFileRead (freshR data) n).2.2 = data.take n
      ∧ (cupsFileRead (freshR data) n).2.1 = (n : Int)
      ∧ (cupsFileRead (cupsFileRewind (cupsFileRead (freshR data) n).1).1 n).2.2
        = data.take n
      ∧ (cupsFileRead (cupsFileRewind (cupsFileRead (freshR data) n).1).1 n).2.1
        = (n : Int))
    ∧ ((cupsFileRead (freshR (gzHdr10 ++ (storedDeflate d ++ (t8 ++ [])))) m).2.2
        = d.take m
      ∧ (cupsFileRead (freshR (gzHdr10 ++ (storedDeflate d ++ (t8 ++ [])))) m).2.1
        = (m : Int)
      ∧ (cupsFileRead (cupsFileRewind
          (cupsFileRead (freshR (gzHdr10 ++ (storedDeflate d ++ (t8 ++ [])))) m).1).1 m).2.2
        = d.take m
      ∧ (cupsFileRead (cupsFileRewind
          (cupsFileRead (freshR (gzHdr10 ++ (storedDeflate d ++ (t8 ++ [])))) m).1).1 m).2.1
        = (m : Int)) :=
  ⟨c6aux_raw data n hsn hlen hn hnd, c6aux_gz d t8 m hd ht htc hlen2 hm hmd⟩

theorem C6_read_rewind_read_witness :
    ((cupsFileRead (freshR [9, 9, 9]) 2).2.2 = [9, 9, 9].take 2
      ∧ (cupsFileRead (freshR [9, 9, 9]) 2).2.1 = 2
      ∧ (cupsFileRead (cupsFileRewind (cupsFileRead (freshR [9, 9, 9]) 2).1).1 2).2.2
        = [9, 9, 9].take 2
      ∧ (cupsFileRead (cupsFileRewind (cupsFileRead (freshR [9, 9, 9]) 2).1).1 2).2.1
        = 2)
    ∧ ((cupsFileRead (freshR (gzHdr10 ++ (storedDeflate [7, 8]
          ++ ((le32 (crc32Z 0 [7, 8]) ++ le32 2) ++ [])))) 1).2.2 = [7, 8].take 1
      ∧ (cupsFileRead (freshR (gzHdr10 ++ (storedDeflate [7, 8]
          ++ ((le32 (crc32Z 0 [7, 8]) ++ le32 2) ++ [])))) 1).2.1 = 1
      ∧ (cupsFileRead (cupsFileRewind
          (cupsFileRead (freshR (gzHdr10 ++ (storedDeflate [7, 8]
            ++ ((le32 (crc32Z 0 [7, 8]) ++ le32 2) ++ [])))) 1).1).1 1).2.2 = [7, 8].take 1
      ∧ (cupsFileRead (cupsFileRewind
          (cupsFileRead (freshR (gzHdr10 ++ (storedDeflate [7, 8]
            ++ ((le32 (crc32Z 0 [7, 8]) ++ le32 2) ++ [])))) 1).1).1 1).2.1 = 1) :=
  C6_read_rewind_read [9, 9, 9] 2 [7, 8] (le32 (crc32Z 0 [7, 8]) ++ le32 2) 1
    (by decide) (by decide) (by decide) (by decide)
    (by decide) (by decide) (by decide) (by decide) (by decide) (by decide)

/-- C7: the buffer-anchor invariant `pos = bufpos + (ptr - buf)` (stated by
`posInv`, with the in-bounds cursor side condition `ptrLe`).  On any handle
satisfying it whose eof flag is clear, it is preserved by a buffer fill (at a
call site where the buffer is exhausted, as in the code), by a read of any
size, by a rewind, and by any seek that returns. -/
theorem C7_position_invariant_preserved (fp : CF) (bytes fuel pos : Nat)
    (st : CF) (r : Int)
    (hinv : posInv fp) (hle : ptrLe fp) (heof : fp.eof = false)
    (hex : ∀ i, fp.ptrIdx = some i → fp.buf.length ≤ i) :
    posInv (cups_fill fp).1
    ∧ posInv (cupsFileRead fp bytes).1
    ∧ posInv (cupsFileRewind fp).1
    ∧ (cupsFileSeek fuel fp pos = some (st, r) → posInv st) :=
  ⟨(cups_fill_spec fp hinv hle heof hex).1,
   (cupsFileRead_spec fp bytes hinv hle).1,
   (cupsFileRewind_spec fp hle).1,
   fun h => cupsFileSeek_spec fuel fp pos st r hinv hle heof h⟩

theorem C7_position_invariant_preserved_witness :
    posInv (cups_fill (freshR [65])).1
    ∧ posInv (cupsFileRead (freshR [65]) 1).1
    ∧ posInv (cupsFileRewind (freshR [65])).1
    ∧ (cupsFileSeek 2 (freshR [65]) 0 = some (freshR [65], 0)
        → posInv (freshR [65])) :=
  C7_position_invariant_preserved (freshR [65]) 1 2 0 (freshR [65]) 0
    (fun _ => rfl) (fun _ hi => nomatch hi) rfl (fun _ hi => nomatch hi)

/-- C8: a configuration line of the shape `key value # comment` — a directive
token, a space, a value token, then an unescaped `#` comment — yields the
directive `key` with value `value`: the comment and the whitespace around it
are stripped and the remainder splits at the first whitespace run. -/
theorem C8_key_value_comment (key v comment : List Char)
    (hk : key ≠ [])
    (hkc : ∀ a ∈ key, isCupsSpace a = false ∧ (a == '#') = false)
    (hk0 : (key.getD 0 ' ' == '<') = false)
    (hv : v ≠ [])
    (hvc : ∀ a ∈ v, isCupsSpace a = false ∧ (a == '#') = false) :
    cupsFileGetConf [key ++ (' ' :: (v ++ (' ' :: '#' :: ' ' :: comment)))]
      = some (key, some v) := by
  unfold cupsFileGetConf
  rw [c8aux_key_value_comment key v comment hk hkc hk0 hv hvc]

theorem C8_key_value_comment_witness :
    cupsFileGetConf
        [['P', 'o', 'r', 't'] ++ (' ' :: (['8', '0'] ++ (' ' :: '#' :: ' ' :: ['c'])))]
      = some (['P', 'o', 'r', 't'], some ['8', '0']) :=
  C8_key_value_comment ['P', 'o', 'r', 't'] ['8', '0'] ['c']
    (by decide) (by decide) (by decide) (by decide) (by decide)

/-- C9: the claim's failure clause is refuted.  `cupsFilePrintf` does render
into a handle-owned buffer of initial capacity 1024 and does grow it to
exactly fit a larger rendered size (first half of the conclusion), but for a
rendered size above 65535 the write does NOT fail: `return (-1)` in the
`bool`-returning function converts to `true`, so the call reports success
(second half), the buffer left at its initial 1024 capacity. -/
theorem C9_overflow_reports_success (s big : List Nat)
    (hs1 : 1024 ≤ s.length) (hs2 : s.length ≤ BUFSZ) (hbig : 65535 < big.length) :
    ((cupsFilePrintf freshW s).2 = true
      ∧ (cupsFilePrintf freshW s).1.printfSize = s.length + 1
      ∧ (cupsFilePrintf freshW s).1.buf = s)
    ∧ ((cupsFilePrintf freshW big).2 = true
      ∧ (cupsFilePrintf freshW big).1.printfSize = 1024) :=
  ⟨c9aux_grow s hs1 hs2, c9aux_overflow big hbig⟩

theorem C9_overflow_reports_success_witness :
    ((cupsFilePrintf freshW (List.replicate 1024 0)).2 = true
      ∧ (cupsFilePrintf freshW (List.replicate 1024 0)).1.printfSize
        = (List.replicate 1024 0).length + 1
      ∧ (cupsFilePrintf freshW (List.replicate 1024 0)).1.buf = List.replicate 1024 0)
    ∧ ((cupsFilePrintf freshW (List.replicate 65536 0)).2 = true
      ∧ (cupsFilePrintf freshW (List.replicate 65536 0)).1.printfSize = 1024) :=
  C9_overflow_reports_success (List.replicate 1024 0) (List.replicate 65536 0)
    (by rw [List.length_replicate])
    (by rw [List.length_replicate]; decide)
    (by rw [List.length_replicate]; decide)

/-- C10: a read-mode handle over a file of fewer than 10 bytes is always
classified as uncompressed — even when the bytes begin with the gzip magic —
and the first fill returns exactly those bytes raw, with a positive count
rather than an error. -/
theorem C10_short_file_raw (data : List Nat) (hlen : data.length < 10) :
    cups_fill (freshR data)
      = ({ freshR data with
           fd := ⟨data, data.length⟩, ptrIdx := some 0, buf := data },
         (data.length : Int)) :=
  c10_truncated_header_raw data hlen

theorem C10_short_file_raw_witness :
    cups_fill (freshR [0x1f, 0x8b, 8, 0, 0])
      = ({ freshR [0x1f, 0x8b, 8, 0, 0] with
           fd := ⟨[0x1f, 0x8b, 8, 0, 0], 5⟩, ptrIdx := some 0,
           buf := [0x1f, 0x8b, 8, 0, 0] }, 5) :=
  C10_short_file_raw [0x1f, 0x8b, 8, 0, 0] (by decide)
